import Mathlib

/-!
# Verification of the mc2 model checker core

A shallow embedding, in Lean 4, of the Rust sources of `mc2`: a model
checker for a hierarchical, optimistic-concurrency document store.  The
embedding follows the source files (`config.rs`, `path.rs`, `store.rs`,
`db.rs`, `actor.rs`, `graph.rs`, `planner.rs`, `runner.rs`) definition by
definition; Rust's in-place mutation becomes explicit state passing, and
`BTreeMap` / `BTreeSet` become association lists / lists kept sorted by
the same ordering the Rust code uses.
-/

set_option maxHeartbeats 1000000

namespace Mc2

/-! ## config.rs -/

inductive Update where
  | ReadsBeforeLinks
  | GetBeforePut
deriving DecidableEq

inductive RemoveMode where
  | UnlinkReverseSequential
  | UnlinkParallel
deriving DecidableEq

inductive Cas where
  | Strict
  | LaxDelete
deriving DecidableEq

structure Config where
  update : Update
  remove : RemoveMode
  skip_links : Bool
  store : Cas
deriving DecidableEq

def Config.new : Config :=
  { update := Update.ReadsBeforeLinks
    remove := RemoveMode.UnlinkReverseSequential
    skip_links := false
    store := Cas.Strict }

/-! ## path.rs

A Rust `Path` stores the original string together with `parts`, the cached
result of `parse(original)`.  Since `Path` values are only ever built by
`Path::new`, the `parts` field is always exactly `parse original`; we
therefore keep the original string and expose `parts` as the function
`parse`.  Derived `Eq`/`Ord` on the Rust struct compare `original` first,
and `parts` is determined by `original`, so equality and ordering of
embedded paths coincide with equality and ordering of the original
strings. -/

/-- `str.split(sep)` for a `char` separator, as a structural recursion on
the character list of the string. -/
def splitSep (sep : Char) : List Char → List (List Char)
  | [] => [[]]
  | c :: rest =>
    let r := splitSep sep rest
    if c = sep then [] :: r
    else
      match r with
      | h :: t => (c :: h) :: t
      | [] => [[c]]

/-- `parse` from path.rs: split on `/`, append `/` to every part except
the last, drop a trailing empty part, and produce the (parent dir, child
name) link pairs. -/
def parse (path : String) : List (String × String) :=
  let raw := (splitSep '/' path.data).map String.mk
  let withSep := raw.enum.map
    (fun p => if p.1 + 1 < raw.length then p.2 ++ "/" else p.2)
  let parts := if withSep.getLast? = some "" then withSep.dropLast else withSep
  (parts.enum.drop 1).map
    (fun p => (String.join (parts.take p.1), p.2))

structure Path where
  original : String
deriving DecidableEq

def Path.new (name : String) : Path := { original := name }

def Path.parts (p : Path) : List (String × String) := parse p.original

def Path.is_dir (p : Path) : Bool := decide (p.original.data.getLast? = some '/')

def Path.is_doc (p : Path) : Bool := !p.is_dir

def Path.full (p : Path) : String := p.original

def Path.dirs (p : Path) : List String := p.parts.map Prod.fst

def Path.links (p : Path) : List (String × String) := p.parts

/-! ## The `BTreeMap<Path, A>` model

Association lists with `Path` keys, kept sorted by the key string (the
ordering `BTreeMap` uses).  `mapInsert` both inserts and replaces, like
`BTreeMap::insert` / the entry API; `mapLookup` is `get`; `mapRemove` is
`remove`; iteration order is the list order. -/

/-- Lexicographic order on strings by code point, which agrees with the
byte-wise `Ord` that Rust `String` (hence `BTreeMap<String, _>`) uses,
since UTF-8 byte order coincides with code-point order. -/
def listCharLt : List Char → List Char → Bool
  | [], [] => false
  | [], _ :: _ => true
  | _ :: _, [] => false
  | a :: as, b :: bs =>
    if a.toNat < b.toNat then true
    else if b.toNat < a.toNat then false
    else listCharLt as bs

def strLt (a b : String) : Bool := listCharLt a.data b.data

def mapLookup {A : Type _} (k : Path) : List (Path × A) → Option A
  | [] => none
  | (k2, v) :: rest => if k = k2 then some v else mapLookup k rest

def mapInsert {A : Type _} (k : Path) (v : A) : List (Path × A) → List (Path × A)
  | [] => [(k, v)]
  | (k2, v2) :: rest =>
    if strLt k.original k2.original then (k, v) :: (k2, v2) :: rest
    else if k = k2 then (k, v) :: rest
    else (k2, v2) :: mapInsert k v rest

def mapRemove {A : Type _} (k : Path) : List (Path × A) → List (Path × A)
  | [] => []
  | (k2, v) :: rest => if k = k2 then rest else (k2, v) :: mapRemove k rest

/-! ## The `BTreeSet<String>` model: sorted lists of strings. -/

def setInsert (x : String) : List String → List String
  | [] => [x]
  | y :: rest =>
    if strLt x y then x :: y :: rest
    else if x = y then y :: rest
    else y :: setInsert x rest

def setRemove (x : String) : List String → List String
  | [] => []
  | y :: rest => if x = y then rest else y :: setRemove x rest

/-! ## store.rs -/

/-- `Store<Path, V>` from store.rs: a revisioned CAS key-value map plus the
global mutation counter `seq`. -/
structure Store (V : Type _) where
  data : List (Path × (Nat × Option V))
  config : Config
  seq : Nat

def Store.new {V : Type _} (config : Config) : Store V :=
  { data := [], config := config, seq := 0 }

def Store.is_strict {V : Type _} (s : Store V) : Bool :=
  s.config.store = Cas.Strict

def Store.get {V : Type _} (s : Store V) (key : Path) : Option V :=
  match mapLookup key s.data with
  | some (_, some value) => some value
  | _ => none

def Store.read {V : Type _} (s : Store V) (key : Path) : Option (Nat × Option V) :=
  if s.is_strict then
    mapLookup key s.data
  else
    match mapLookup key s.data with
    | some (rev, some value) => some (rev, some value)
    | _ => none

/-- `Store::set_key`.  Note the entry API: `entry(key).or_insert((0, None))`
materialises the default record even when the CAS check then fails, so the
failure branch still writes the (unchanged) entry back into the map. -/
def Store.set_key {V : Type _} (s : Store V) (key : Path) (rev : Option Nat)
    (value : Option V) : Store V × Option Nat :=
  let client_rev := rev.getD 0
  let entry := (mapLookup key s.data).getD (0, none)
  if (s.is_strict || entry.2.isSome) && entry.1 != client_rev then
    ({ s with data := mapInsert key entry s.data }, none)
  else
    ({ s with data := mapInsert key (entry.1 + 1, value) s.data, seq := s.seq + 1 },
      some (entry.1 + 1))

def Store.write {V : Type _} (s : Store V) (key : Path) (rev : Option Nat)
    (value : V) : Store V × Option Nat :=
  s.set_key key rev (some value)

def Store.remove {V : Type _} (s : Store V) (key : Path) (rev : Option Nat) :
    Store V × Option Nat :=
  s.set_key key rev none

def Store.keys {V : Type _} (s : Store V) : List Path :=
  s.data.map Prod.fst

/-! ## store.rs, `Cache` -/

/-- Per-client read-your-writes cache.  `data` maps each touched key to
`none` (observed absent) or `some (rev, value)` (the observed record).
The shared store is passed in and returned explicitly. -/
structure Cache (V : Type _) where
  data : List (Path × Option (Nat × Option V))

def Cache.new {V : Type _} : Cache V := { data := [] }

def Cache.read {V : Type _} (c : Cache V) (s : Store V) (key : Path) :
    Option V × Cache V :=
  let c1 :=
    if (mapLookup key c.data).isSome then c
    else { data := mapInsert key (s.read key) c.data }
  match mapLookup key c1.data with
  | some (some (_, some value)) => (some value, c1)
  | _ => (none, c1)

def Cache.get_rev {V : Type _} (c : Cache V) (key : Path) : Option Nat :=
  match mapLookup key c.data with
  | some (some (rev, _)) => some rev
  | _ => none

def Cache.write {V : Type _} (c : Cache V) (s : Store V) (key : Path) (value : V) :
    Bool × Cache V × Store V :=
  let old_rev := c.get_rev key
  match s.write key old_rev value with
  | (s1, some new_rev) =>
    (true, { data := mapInsert key (some (new_rev, some value)) c.data }, s1)
  | (s1, none) =>
    (false, { data := mapRemove key c.data }, s1)

def Cache.remove {V : Type _} (c : Cache V) (s : Store V) (key : Path) :
    Bool × Cache V × Store V :=
  let old_rev := c.get_rev key
  match Store.remove s key old_rev with
  | (s1, some _) =>
    (true, { data := mapInsert key none c.data }, s1)
  | (s1, none) =>
    (false, { data := mapRemove key c.data }, s1)

/-! ## db.rs -/

/-- The stored value: an application document or a directory, the latter a
`BTreeSet<String>` of child names (modelled as a sorted list). -/
inductive Db (T : Type _) where
  | Doc : T → Db T
  | Dir : List String → Db T
deriving DecidableEq

/-- `Checker` state: the `seq` of the last store state found consistent,
and the error accumulator.  The store reference is passed to `check`. -/
structure Checker where
  seq : Nat
  errors : List String
deriving DecidableEq

def Checker.new : Checker := { seq := 0, errors := [] }

/-- `Checker::check_doc`: the error strings contributed by one present
document, walking its links in order. -/
def Checker.check_doc {T : Type _} (s : Store (Db T)) (doc : Path) : List String :=
  doc.links.flatMap (fun dn =>
    match s.get (Path.new dn.1) with
    | some (Db.Dir entries) =>
      if dn.2 ∈ entries then []
      else ["dir \x27" ++ dn.1 ++ "\x27 does not include name \x27" ++ dn.2 ++
            "\x27, required by doc \x27" ++ doc.original ++ "\x27"]
    | _ =>
      ["dir \x27" ++ dn.1 ++ "\x27, required by doc \x27" ++ doc.original ++
       "\x27, is missing"])

/-- `Checker::check`: skip if the store has not mutated since the last
successful check; otherwise collect errors over all present documents in
key order. -/
def Checker.check {T : Type _} (c : Checker) (s : Store (Db T)) :
    Except (List String) Unit × Checker :=
  if c.seq = s.seq then (Except.ok (), c)
  else
    let errors := (s.keys.filter (fun p => p.is_doc && (s.get p).isSome)).flatMap
      (Checker.check_doc s)
    if errors.isEmpty then (Except.ok (), { seq := s.seq, errors := errors })
    else (Except.error errors, { seq := c.seq, errors := errors })

/-! ## planner.rs: `Op` and `Act` -/

inductive Op (T : Type _) where
  | Get : Op T
  | Put : (Option T → Option T) → Op T
  | Rm : Op T
  | List : Op T
  | Link : String → Op T
  | Unlink : String → Op T

structure Act (T : Type _) where
  client_id : String
  path : Path
  op : Op T

/-! ## actor.rs

Rust mutates the actor and (through the cache) the shared store in place;
here every operation returns the updated actor and store. -/

structure Actor (T : Type _) where
  cache : Cache (Db T)
  config : Config
  crashed : Bool
  unlinks : List String

def Actor.new {T : Type _} (config : Config) : Actor T :=
  { cache := Cache.new, config := config, crashed := false, unlinks := [] }

def Actor.get {T : Type _} (a : Actor T) (s : Store (Db T)) (path : Path) :
    Option T × Actor T × Store (Db T) :=
  if a.crashed then (none, a, s)
  else
    match Cache.read a.cache s path with
    | (some (Db.Doc value), c1) => (some value, { a with cache := c1 }, s)
    | (_, c1) => (none, { a with cache := c1 }, s)

def Actor.list {T : Type _} (a : Actor T) (s : Store (Db T)) (path : Path) :
    Option (List String) × Actor T × Store (Db T) :=
  if a.crashed then (none, a, s)
  else
    match Cache.read a.cache s path with
    | (some (Db.Dir value), c1) => (some value, { a with cache := c1 }, s)
    | (_, c1) => (none, { a with cache := c1 }, s)

/-- `Actor::write`: a failed cache write latches the crash flag. -/
def Actor.write {T : Type _} (a : Actor T) (s : Store (Db T)) (key : Path)
    (value : Db T) : Actor T × Store (Db T) :=
  match Cache.write a.cache s key value with
  | (true, c1, s1) => ({ a with cache := c1 }, s1)
  | (false, c1, s1) => ({ a with cache := c1, crashed := true }, s1)

def Actor.put {T : Type _} (a : Actor T) (s : Store (Db T)) (path : Path)
    (update : Option T → Option T) : Actor T × Store (Db T) :=
  if a.crashed then (a, s)
  else
    match Actor.get a s path with
    | (doc, a1, s1) =>
      match update doc with
      | some value => Actor.write a1 s1 path (Db.Doc value)
      | none => (a1, s1)

/-- The loop at the end of `Actor::rm`: walk `path.links()` in reverse,
record each parent dir as unlink-authorised, and stop at the first dir
whose listing is not exactly the just-removed child. -/
def Actor.rm_walk {T : Type _} (a : Actor T) (s : Store (Db T)) :
    List (String × String) → Actor T × Store (Db T)
  | [] => (a, s)
  | (dir, name) :: rest =>
    let a1 := { a with unlinks := setInsert dir a.unlinks }
    match Actor.list a1 s (Path.new dir) with
    | (listing, a2, s2) =>
      if listing = some [name] then Actor.rm_walk a2 s2 rest
      else (a2, s2)

def Actor.rm {T : Type _} (a : Actor T) (s : Store (Db T)) (path : Path) :
    Actor T × Store (Db T) :=
  if a.crashed then (a, s)
  else
    match Actor.get a s path with
    | (none, a1, s1) => (a1, s1)
    | (some _, a1, s1) =>
      match Cache.remove a1.cache s1 path with
      | (false, c2, s2) => ({ a1 with cache := c2, crashed := true }, s2)
      | (true, c2, s2) =>
        Actor.rm_walk { a1 with cache := c2, unlinks := [] } s2 path.links.reverse

def Actor.link {T : Type _} (a : Actor T) (s : Store (Db T)) (path : Path)
    (entry : String) : Actor T × Store (Db T) :=
  if a.crashed then (a, s)
  else
    match Actor.list a s path with
    | (listing, a1, s1) =>
      let entries := listing.getD []
      if !a.config.skip_links || !(decide (entry ∈ entries)) then
        Actor.write a1 s1 path (Db.Dir (setInsert entry entries))
      else (a1, s1)

def Actor.unlink {T : Type _} (a : Actor T) (s : Store (Db T)) (path : Path)
    (entry : String) : Actor T × Store (Db T) :=
  if !a.crashed && decide (path.full ∈ a.unlinks) then
    match Actor.list a s path with
    | (listing, a1, s1) =>
      Actor.write a1 s1 path (Db.Dir (setRemove entry (listing.getD [])))
  else (a, s)

def Actor.dispatch {T : Type _} (a : Actor T) (s : Store (Db T)) (act : Act T) :
    Actor T × Store (Db T) :=
  match act.op with
  | Op.Get => (Actor.get a s act.path).2
  | Op.Put f => Actor.put a s act.path f
  | Op.Rm => Actor.rm a s act.path
  | Op.List => (Actor.list a s act.path).2
  | Op.Link name => Actor.link a s act.path name
  | Op.Unlink name => Actor.unlink a s act.path name

/-! ## graph.rs -/

structure Node (T : Type _) where
  id : Nat
  deps : List Nat
  value : T

structure Graph (T : Type _) where
  nodes : List (Node T)

def Graph.new {T : Type _} : Graph T := { nodes := [] }

/-- `Graph::add`: ids are allocated as insertion position + 1. -/
def Graph.add {T : Type _} (g : Graph T) (deps : List Nat) (value : T) :
    Graph T × Nat :=
  let node_id := g.nodes.length + 1
  ({ nodes := g.nodes ++ [{ id := node_id, deps := deps, value := value }] },
    node_id)

/-- The `remaining` computation inside `permute`: drop the chosen action
and erase it from every dependency list. -/
def removeAction (action : Nat) (nodes : List (Nat × List Nat)) :
    List (Nat × List Nat) :=
  (nodes.filter (fun n => n.1 != action)).map
    (fun n => (n.1, n.2.filter (fun d => d != action)))

/-- `permute` from graph.rs: enumerate every topological ordering by
choosing, at each step, any node whose dependency list is empty (in
insertion order), removing it, and recursing. -/
def permute (nodes : List (Nat × List Nat)) : List (List Nat) :=
  if nodes.isEmpty then [[]]
  else
    let available := (nodes.filter (fun n => n.2.isEmpty)).map Prod.fst
    available.attach.flatMap (fun a =>
      (permute (removeAction a.1 nodes)).map (fun order => a.1 :: order))
termination_by nodes.length
decreasing_by
  obtain ⟨n, hn, hfst⟩ := List.mem_map.mp a.2
  have hmem : n ∈ nodes := (List.mem_filter.mp hn).1
  have hpx : (n.1 != a.1) = false := by simp [hfst]
  simp only [removeAction, List.length_map]
  have key : ∀ L : List (Nat × List Nat), (∃ m ∈ L, (m.1 != a.1) = false) →
      (L.filter (fun nn => nn.1 != a.1)).length < L.length := by
    intro L
    induction L with
    | nil => rintro ⟨m, hm, _⟩; cases hm
    | cons y ys ih =>
      rintro ⟨m, hm, hpm⟩
      rcases List.mem_cons.mp hm with rfl | hm2
      · simp only [List.filter_cons, hpm]
        exact Nat.lt_succ_of_le (List.length_filter_le _ ys)
      · simp only [List.filter_cons]
        cases _hpy : (y.1 != a.1)
        · exact Nat.lt_succ_of_lt (ih ⟨m, hm2, hpm⟩)
        · simpa using Nat.succ_lt_succ (ih ⟨m, hm2, hpm⟩)
  exact key nodes ⟨n, hmem, hpx⟩

/-- The `(id, deps)` view of the graph that `Graph::orderings` hands to
`permute`. -/
def Graph.pairs {T : Type _} (g : Graph T) : List (Nat × List Nat) :=
  g.nodes.map (fun n => (n.id, n.deps))

/-- `Graph::orderings`: enumerate id orderings, then map each id to the
value of its node (`nodes[id - 1]`; out-of-range ids, impossible for a
well-formed graph, are skipped). -/
def Graph.orderings {T : Type _} (g : Graph T) : List (List T) :=
  (permute g.pairs).map
    (fun order => order.filterMap (fun id => (g.nodes.get? (id - 1)).map Node.value))

/-! ## planner.rs: `Client` -/

/-- `Client::do_reads`: one dependency-free `List` per parent directory,
then one dependency-free `Get` of the path; returns the new graph and the
ids of all the reads. -/
def Client.do_reads {T : Type _} (id : String) (g : Graph (Act T)) (path : Path) :
    Graph (Act T) × List Nat :=
  let step := path.dirs.foldl
    (fun gr dir =>
      let x := Graph.add gr.1 [] { client_id := id, path := Path.new dir, op := Op.List }
      (x.1, gr.2 ++ [x.2]))
    (g, ([] : List Nat))
  let x := Graph.add step.1 [] { client_id := id, path := path, op := Op.Get }
  (x.1, step.2 ++ [x.2])

def Client.update_reads_before_links {T : Type _} (id : String) (g : Graph (Act T))
    (key : String) (update : Option T → Option T) : Graph (Act T) :=
  let path := Path.new key
  let reads := Client.do_reads id g path
  let links := path.links.foldl
    (fun gr dn =>
      let x := Graph.add gr.1 reads.2
        { client_id := id, path := Path.new dn.1, op := Op.Link dn.2 }
      (x.1, gr.2 ++ [x.2]))
    (reads.1, ([] : List Nat))
  (Graph.add links.1 links.2 { client_id := id, path := path, op := Op.Put update }).1

def Client.update_get_before_put {T : Type _} (id : String) (g : Graph (Act T))
    (key : String) (update : Option T → Option T) : Graph (Act T) :=
  let path := Path.new key
  let links := path.links.foldl
    (fun gr dn =>
      let l := Graph.add gr.1 []
        { client_id := id, path := Path.new dn.1, op := Op.List }
      let k := Graph.add l.1 [l.2]
        { client_id := id, path := Path.new dn.1, op := Op.Link dn.2 }
      (k.1, gr.2 ++ [k.2]))
    (g, ([] : List Nat))
  let getx := Graph.add links.1 [] { client_id := id, path := path, op := Op.Get }
  (Graph.add getx.1 (getx.2 :: links.2)
    { client_id := id, path := path, op := Op.Put update }).1

def Client.update {T : Type _} (config : Config) (id : String) (g : Graph (Act T))
    (key : String) (update : Option T → Option T) : Graph (Act T) :=
  if config.update = Update.GetBeforePut then
    Client.update_get_before_put id g key update
  else
    Client.update_reads_before_links id g key update

def Client.remove_unlink_reverse_sequential {T : Type _} (id : String)
    (g : Graph (Act T)) (key : String) : Graph (Act T) :=
  let path := Path.new key
  let reads := Client.do_reads id g path
  let rm := Graph.add reads.1 reads.2 { client_id := id, path := path, op := Op.Rm }
  (path.links.reverse.foldl
    (fun gr dn =>
      Graph.add gr.1 [gr.2]
        { client_id := id, path := Path.new dn.1, op := Op.Unlink dn.2 })
    rm).1

def Client.remove_unlink_parallel {T : Type _} (id : String) (g : Graph (Act T))
    (key : String) : Graph (Act T) :=
  let path := Path.new key
  let reads := Client.do_reads id g path
  let rm := Graph.add reads.1 reads.2 { client_id := id, path := path, op := Op.Rm }
  path.links.foldl
    (fun gr dn =>
      (Graph.add gr [rm.2]
        { client_id := id, path := Path.new dn.1, op := Op.Unlink dn.2 }).1)
    rm.1

def Client.remove {T : Type _} (config : Config) (id : String) (g : Graph (Act T))
    (key : String) : Graph (Act T) :=
  if config.remove = RemoveMode.UnlinkParallel then
    Client.remove_unlink_parallel id g key
  else
    Client.remove_unlink_reverse_sequential id g key

/-! ## runner.rs: the per-ordering check loop

`Worker::run` keeps one actor per client id, dispatches each act of the
ordering to the actor owning it, and runs the checker after every act. -/

structure RunState (T : Type _) where
  store : Store (Db T)
  actors : List (String × Actor T)
  checker : Checker
  allOk : Bool

def lookupActor {T : Type _} (id : String) :
    List (String × Actor T) → Option (Actor T)
  | [] => none
  | (i, a) :: rest => if i = id then some a else lookupActor id rest

def updateActor {T : Type _} (id : String) (a : Actor T) :
    List (String × Actor T) → List (String × Actor T)
  | [] => []
  | (i, b) :: rest =>
    if i = id then (i, a) :: rest else (i, b) :: updateActor id a rest

/-- One iteration of the loop in `Worker::run`: route the act to its
owning client's actor, dispatch it, then re-check the invariant.  `allOk`
accumulates whether the checker returned `Ok` after every act so far.
(`runner.rs` unwraps the actor lookup; an act of an unregistered client,
impossible for plans built by the planner, leaves the state unchanged.) -/
def runAct {T : Type _} (st : RunState T) (act : Act T) : RunState T :=
  match lookupActor act.client_id st.actors with
  | none => st
  | some a =>
    let as1 := Actor.dispatch a st.store act
    let st1 := { st with
      store := as1.2, actors := updateActor act.client_id as1.1 st.actors }
    let chk := Checker.check st1.checker st1.store
    { st1 with
      checker := chk.2
      allOk := st1.allOk &&
        (match chk.1 with | Except.ok _ => true | Except.error _ => false) }

def runPlan {T : Type _} (st : RunState T) (plan : List (Act T)) : RunState T :=
  plan.foldl runAct st

/-! ## Specification-side predicates for the enumerator (claim C4)

`IsLinearExt nodes l` says `l` is a linear extension of the dependency
DAG described by `nodes`: a sequence containing each node id exactly once
in which every dependency appears before its dependent. -/

def nodeIds (nodes : List (Nat × List Nat)) : List Nat := nodes.map Prod.fst

/-- `x` occurs (strictly) before `y` in `l`. -/
def precedes (x y : Nat) (l : List Nat) : Prop :=
  ∃ i : Fin l.length, ∃ j : Fin l.length, i.1 < j.1 ∧ l.get i = x ∧ l.get j = y

def IsLinearExt (nodes : List (Nat × List Nat)) (l : List Nat) : Prop :=
  List.Perm l (nodeIds nodes) ∧ ∀ p ∈ nodes, ∀ d ∈ p.2, precedes d p.1 l

/-- Invariant of the id/dependency lists `permute` recurses over: ids are
distinct and every dependency names some node of the list. -/
def NodesWF (nodes : List (Nat × List Nat)) : Prop :=
  (nodeIds nodes).Nodup ∧ ∀ p ∈ nodes, ∀ d ∈ p.2, d ∈ nodeIds nodes

/-- A graph as built by `Graph::add`: the node at position `i` has id
`i + 1`, and dependency lists reference only earlier-added node ids. -/
def Graph.WF {T : Type _} (g : Graph T) : Prop :=
  ∀ pn ∈ g.nodes.enum, pn.2.id = pn.1 + 1 ∧ ∀ d ∈ pn.2.deps, 1 ≤ d ∧ d < pn.2.id

/-! ## Specification-side predicates for the checker (claim C8) -/

/-- One link of a present document is intact: the parent dir is a present
`Dir` whose entries contain the child name. -/
def linkOk {T : Type _} (s : Store (Db T)) (dn : String × String) : Prop :=
  ∃ entries, s.get (Path.new dn.1) = some (Db.Dir entries) ∧ dn.2 ∈ entries

/-- The error message for a missing / tombstoned / non-dir parent, exactly
as formatted by `Checker::check_doc`. -/
def missingDirMsg (dir doc : String) : String :=
  "dir \x27" ++ dir ++ "\x27, required by doc \x27" ++ doc ++ "\x27, is missing"

/-- The error message for a name absent from a present parent dir. -/
def missingNameMsg (dir name doc : String) : String :=
  "dir \x27" ++ dir ++ "\x27 does not include name \x27" ++ name ++
  "\x27, required by doc \x27" ++ doc ++ "\x27"

/-- The error list claimed for `Checker::check`: walking present documents
in key order and each document's links in order, one message per violated
link, worded as above. -/
def claimedErrors {T : Type _} (s : Store (Db T)) : List String :=
  (s.keys.filter (fun p => p.is_doc && (s.get p).isSome)).flatMap (fun doc =>
    doc.links.flatMap (fun dn =>
      match s.get (Path.new dn.1) with
      | some (Db.Dir entries) =>
        if dn.2 ∈ entries then [] else [missingNameMsg dn.1 dn.2 doc.original]
      | _ => [missingDirMsg dn.1 doc.original]))

/-! ## The end-to-end conflict scenario (claim C1)

The `update/update conflict` scenario of main.rs under the default
configuration: a baseline in which `/path/x` exists at rev 1, and two
clients A and B that each compile `update("/path/x", _)` into one shared
graph.  Documents are `Nat`s: the baseline value is 1, client A writes 2,
client B writes 3. -/

def rootPath : Path := Path.new "/"

def pdirPath : Path := Path.new "/path/"

def xPath : Path := Path.new "/path/x"

def conflictBase : Store (Db Nat) :=
  ((((Store.new Config.new).write rootPath none (Db.Dir ["path/"])).1.write
      pdirPath none (Db.Dir ["x"])).1.write xPath none (Db.Doc 1)).1

def updA : Option Nat → Option Nat := fun _ => some 2

def updB : Option Nat → Option Nat := fun _ => some 3

def conflictGraph : Graph (Act Nat) :=
  Client.update Config.new "B"
    (Client.update Config.new "A" Graph.new "/path/x" updA) "/path/x" updB

def conflictInit : RunState Nat :=
  { store := conflictBase
    actors := [("A", Actor.new Config.new), ("B", Actor.new Config.new)]
    checker := Checker.new
    allOk := true }

/-- The acts of the merged conflict plan in insertion order (all of A's,
then all of B's); dispatching them in this order is the first ordering the
enumerator yields. -/
def seqPlan : List (Act Nat) := conflictGraph.nodes.map Node.value

/-! ## The remove-and-unlink scenario (claims C5, C6) -/

def yKey : String := "/path/to/y.json"

def yPath : Path := Path.new yKey

/-- The baseline of the remove-and-unlink scenario: `/` = {path/},
`/path/` = {to/, x.json}, `/path/to/` = {y.json}, docs at `/path/x.json`
and `/path/to/y.json`. -/
def removeBase : Store (Db Nat) :=
  ((((((Store.new Config.new).write rootPath none (Db.Dir ["path/"])).1.write
      pdirPath none (Db.Dir ["to/", "x.json"])).1.write
      (Path.new "/path/to/") none (Db.Dir ["y.json"])).1.write
      (Path.new "/path/x.json") none (Db.Doc 1)).1.write
      yPath none (Db.Doc 2)).1

/-- The act sequence of claim C6: `Rm` of the document, then the three
unlinks from deepest to shallowest, all owned by one client. -/
def removeActs : List (Act Nat) :=
  [{ client_id := "A", path := yPath, op := Op.Rm },
   { client_id := "A", path := Path.new "/path/to/", op := Op.Unlink "y.json" },
   { client_id := "A", path := pdirPath, op := Op.Unlink "to/" },
   { client_id := "A", path := rootPath, op := Op.Unlink "path/" }]

/-- Dispatch a list of acts to a single actor over a store. -/
def dispatchList {T : Type _} (a : Actor T) (s : Store (Db T)) :
    List (Act T) → Actor T × Store (Db T)
  | [] => (a, s)
  | act :: rest =>
    let r := Actor.dispatch a s act
    dispatchList r.1 r.2 rest

/-! ## Invariants of the conflict scenario (claim C1) -/

/-- Store invariant of the conflict scenario: the store always holds
exactly the three baseline keys; both directories keep their baseline
entry sets (every `Link` act re-writes the same set), and `/path/x` is a
present document whose value is the baseline value or one of the two
clients' values. -/
def conflictStoreInv (s : Store (Db Nat)) : Prop :=
  s.config = Config.new ∧
  ∃ r0 r1 r2 v,
    s.data = [(rootPath, (r0, some (Db.Dir ["path/"]))),
              (pdirPath, (r1, some (Db.Dir ["x"]))),
              (xPath, (r2, some (Db.Doc v)))] ∧
    1 ≤ r2 ∧ (v = 1 ∨ v = 2 ∨ v = 3)

/-- Cache invariant: every memoized record for one of the three keys has
the shape of that key's store records (dirs keep their entry sets; the
document holds some `Doc`). -/
def conflictCacheInv (c : Cache (Db Nat)) : Prop :=
  ∀ kv ∈ c.data,
    (kv.1 = rootPath → ∃ r, kv.2 = some (r, some (Db.Dir ["path/"]))) ∧
    (kv.1 = pdirPath → ∃ r, kv.2 = some (r, some (Db.Dir ["x"]))) ∧
    (kv.1 = xPath → ∃ r w, kv.2 = some (r, some (Db.Doc w)))

def conflictActorInv (a : Actor Nat) : Prop :=
  a.config = Config.new ∧ conflictCacheInv a.cache

def conflictInv (st : RunState Nat) : Prop :=
  conflictStoreInv st.store ∧
  (∃ aA aB, st.actors = [("A", aA), ("B", aB)] ∧
    conflictActorInv aA ∧ conflictActorInv aB) ∧
  st.allOk = true

/-- The current rev of `/path/x` (0 when absent, like the entry API). -/
def xrevS (s : Store (Db Nat)) : Nat :=
  ((mapLookup xPath s.data).getD (0, none)).1

def isPutAct {T : Type _} (a : Act T) : Bool :=
  match a.op with
  | Op.Put _ => true
  | _ => false

/-- The id sequence of the all-of-A-then-all-of-B ordering. -/
def seqIds : List Nat := [1, 2, 3, 4, 5, 6, 7, 8, 9, 10, 11, 12]

/-! ## The expected shape of a remove plan (claim C5) -/

/-- One depless `List` node per directory, ids counting up from `n0 + 1`. -/
def listOpNodes (T : Type _) (id : String) (n0 : Nat) :
    List String → List (Node (Act T))
  | [] => []
  | d :: ds =>
    { id := n0 + 1, deps := [],
      value := { client_id := id, path := Path.new d, op := Op.List } } ::
    listOpNodes T id (n0 + 1) ds

/-- A chain of `Unlink` nodes with ids counting up from `n0 + 1`, each
depending exactly on the act before it (the act with id `n0` first). -/
def unlinkChainNodes (T : Type _) (id : String) (n0 : Nat) :
    List (String × String) → List (Node (Act T))
  | [] => []
  | dn :: rest =>
    { id := n0 + 1, deps := [n0],
      value := { client_id := id, path := Path.new dn.1, op := Op.Unlink dn.2 } } ::
    unlinkChainNodes T id (n0 + 1) rest

/-- The nodes `Client::remove` (reverse-sequential flavour) appends to a
graph that already has `n0` nodes: one depless `List` per parent dir, one
depless `Get`, one `Rm` depending on all the reads, then the unlink chain
over `path.links()` reversed, the first unlink depending on the `Rm` and
each later unlink on the previous unlink. -/
def removePlanNodes (T : Type _) (id : String) (n0 : Nat) (p : Path) :
    List (Node (Act T)) :=
  let d := p.dirs.length
  listOpNodes T id n0 p.dirs
  ++ [{ id := n0 + d + 1, deps := [],
        value := { client_id := id, path := p, op := Op.Get } },
      { id := n0 + d + 2, deps := List.range' (n0 + 1) (d + 1),
        value := { client_id := id, path := p, op := Op.Rm } }]
  ++ unlinkChainNodes T id (n0 + d + 2) p.links.reverse

/-- The diamond graph `a → {b, c} → d` (used to instantiate C4). -/
def diamondGraph : Graph Char :=
  (Graph.add (Graph.add (Graph.add (Graph.add Graph.new
    [] 'a').1 [1] 'b').1 [1] 'c').1 [2, 3] 'd').1

/-! # Theorems -/


/-! ### Association-list lemmas -/

theorem listCharLt_irrefl (l : List Char) : listCharLt l l = false := by
  induction l with
  | nil => rfl
  | cons a t ih => simp [listCharLt, ih]

theorem strLt_irrefl (a : String) : strLt a a = false := listCharLt_irrefl a.data

theorem mapLookup_insert_self {A : Type _} (k : Path) (v : A) (l : List (Path × A)) :
    mapLookup k (mapInsert k v l) = some v := by
  induction l with
  | nil => simp [mapInsert, mapLookup]
  | cons kv t ih =>
    by_cases h1 : strLt k.original kv.1.original = true
    · simp [mapInsert, h1, mapLookup]
    · by_cases h2 : k = kv.1
      · subst h2
        simp [mapInsert, h1, strLt_irrefl, mapLookup]
      · simp [mapInsert, h1, h2, mapLookup, ih]

theorem mapLookup_insert_ne {A : Type _} {k k2 : Path} (h : k2 ≠ k) (v : A)
    (l : List (Path × A)) : mapLookup k2 (mapInsert k v l) = mapLookup k2 l := by
  induction l with
  | nil => simp [mapInsert, mapLookup, h]
  | cons kv t ih =>
    by_cases h1 : strLt k.original kv.1.original = true
    · simp [mapInsert, h1, mapLookup, h]
    · by_cases h2 : k = kv.1
      · subst h2
        simp [mapInsert, h1, mapLookup, h]
      · simp [mapInsert, h1, h2, mapLookup, ih]

theorem mapLookup_mem {A : Type _} {k : Path} {v : A} {l : List (Path × A)}
    (h : mapLookup k l = some v) : (k, v) ∈ l := by
  induction l with
  | nil => simp [mapLookup] at h
  | cons kv t ih =>
    by_cases h2 : k = kv.1
    · subst h2
      simp [mapLookup] at h
      simp [← h]
    · simp [mapLookup, h2] at h
      exact List.mem_cons_of_mem _ (ih h)

theorem mem_mapInsert {A : Type _} {kv : Path × A} {k : Path} {v : A}
    {l : List (Path × A)} (h : kv ∈ mapInsert k v l) : kv = (k, v) ∨ kv ∈ l := by
  induction l with
  | nil => simpa [mapInsert] using h
  | cons kv2 t ih =>
    by_cases h1 : strLt k.original kv2.1.original = true
    · simp only [mapInsert, h1, if_true] at h
      rcases List.mem_cons.mp h with h | h
      · exact Or.inl h
      · exact Or.inr h
    · by_cases h2 : k = kv2.1
      · subst h2
        simp only [mapInsert, h1, if_false, strLt_irrefl, if_true, if_pos rfl,
          Bool.false_eq_true] at h
        rcases List.mem_cons.mp h with h | h
        · exact Or.inl h
        · exact Or.inr (List.mem_cons_of_mem _ h)
      · simp only [mapInsert, h1, h2, if_false, Bool.false_eq_true] at h
        rcases List.mem_cons.mp h with h | h
        · exact Or.inr (h ▸ List.mem_cons_self _ _)
        · rcases ih h with h | h
          · exact Or.inl h
          · exact Or.inr (List.mem_cons_of_mem _ h)

theorem mem_mapRemove {A : Type _} {kv : Path × A} {k : Path} {l : List (Path × A)}
    (h : kv ∈ mapRemove k l) : kv ∈ l := by
  induction l with
  | nil => simp [mapRemove] at h
  | cons kv2 t ih =>
    by_cases h2 : k = kv2.1
    · simp [mapRemove, h2] at h
      simp [h]
    · simp [mapRemove, h2] at h
      rcases h with h | h
      · simp [h]
      · exact List.mem_cons_of_mem _ (ih h)

/-! ### C2 -/

/-- C2 counterexample store: write `/path/x`, then remove it at rev 1. -/
theorem C2_counterexample :
    (((((Store.new Config.new).write xPath none (Db.Doc 7)).1.remove xPath
        (some 1)).1.config.store = Cas.Strict) ∧
     mapLookup xPath ((((Store.new Config.new).write xPath none
        (Db.Doc 7)).1.remove xPath (some 1)).1.data) = some (2, none) ∧
     ((((Store.new Config.new).write xPath none (Db.Doc 7)).1.remove xPath
        (some 1)).1.read xPath ≠ none)) := by
  refine ⟨by decide, by decide, by decide⟩

/-- C2 (amended): in strict mode, `read` of a tombstoned key returns
`some (rev, none)` — the rev is exposed, no value. -/
theorem C2_read_tombstone {V : Type _} (s : Store V) (k : Path) (r : Nat)
    (hs : s.config.store = Cas.Strict) (ht : mapLookup k s.data = some (r, none))
    (_hr : 1 ≤ r) : s.read k = some (r, none) := by
  simp [Store.read, Store.is_strict, hs, ht]

theorem C2_witness :
    (((((Store.new Config.new).write xPath none (Db.Doc 7)).1.remove xPath
        (some 1)).1 : Store (Db Nat)).read xPath = some (2, none)) :=
  C2_read_tombstone _ xPath 2 (by decide) (by decide) (by decide)

/-! ### Store.set_key case lemmas -/

theorem is_strict_true {V : Type _} {s : Store V} (hs : s.config.store = Cas.Strict) :
    s.is_strict = true := by
  simp [Store.is_strict, hs]

theorem set_key_fail {V : Type _} {s : Store V} {k : Path} {rev : Option Nat}
    {value : Option V}
    (hc : (s.is_strict || ((mapLookup k s.data).getD (0, none)).2.isSome) = true)
    (hne : ((mapLookup k s.data).getD (0, none)).1 ≠ rev.getD 0) :
    s.set_key k rev value =
      ({ s with data := mapInsert k ((mapLookup k s.data).getD (0, none)) s.data },
        none) := by
  have hcond : ((s.is_strict || ((mapLookup k s.data).getD (0, none)).2.isSome) &&
      (((mapLookup k s.data).getD (0, none)).1 != rev.getD 0)) = true := by
    rw [hc, Bool.true_and, bne_iff_ne]
    exact hne
  simp only [Store.set_key, hcond, if_true]

theorem set_key_ok {V : Type _} {s : Store V} {k : Path} {rev : Option Nat}
    {value : Option V}
    (h : (s.is_strict || ((mapLookup k s.data).getD (0, none)).2.isSome) = false ∨
      ((mapLookup k s.data).getD (0, none)).1 = rev.getD 0) :
    s.set_key k rev value =
      ({ s with
          data := mapInsert k (((mapLookup k s.data).getD (0, none)).1 + 1, value)
            s.data,
          seq := s.seq + 1 },
        some (((mapLookup k s.data).getD (0, none)).1 + 1)) := by
  have hcond : ((s.is_strict || ((mapLookup k s.data).getD (0, none)).2.isSome) &&
      (((mapLookup k s.data).getD (0, none)).1 != rev.getD 0)) = false := by
    rcases h with h | h
    · rw [h, Bool.false_and]
    · rw [h, bne_self_eq_false, Bool.and_false]
  simp only [Store.set_key, hcond, Bool.false_eq_true, if_false]

/-! ### C3 -/

/-- C3: strict-mode CAS semantics of `Store::write`: the write fails with
`none`, leaving the record and `seq` unchanged, exactly when the current
rev (0 for a never-mutated key) differs from `expected_rev or 0`;
otherwise it bumps the rev, stores the value, increments `seq` and
returns the new rev; a first write with no expected rev returns rev 1. -/
theorem C3_write_cas {V : Type _} (s : Store V) (k : Path) (rev : Option Nat)
    (v : V) (hs : s.config.store = Cas.Strict) :
    (((mapLookup k s.data).getD (0, none)).1 ≠ rev.getD 0 →
      (s.write k rev v).2 = none ∧
      (mapLookup k (s.write k rev v).1.data).getD (0, none) =
        (mapLookup k s.data).getD (0, none) ∧
      (s.write k rev v).1.seq = s.seq) ∧
    (((mapLookup k s.data).getD (0, none)).1 = rev.getD 0 →
      (s.write k rev v).2 = some (((mapLookup k s.data).getD (0, none)).1 + 1) ∧
      mapLookup k (s.write k rev v).1.data =
        some (((mapLookup k s.data).getD (0, none)).1 + 1, some v) ∧
      (s.write k rev v).1.seq = s.seq + 1) ∧
    (mapLookup k s.data = none → rev = none → (s.write k rev v).2 = some 1) := by
  have hstrict : (s.is_strict ||
      ((mapLookup k s.data).getD (0, none)).2.isSome) = true := by
    rw [is_strict_true hs, Bool.true_or]
  refine ⟨fun hne => ?_, fun heq => ?_, fun hnone hrev => ?_⟩
  · have hw : s.write k rev v =
        ({ s with data := mapInsert k ((mapLookup k s.data).getD (0, none)) s.data },
          none) :=
      set_key_fail hstrict hne
    rw [hw]
    exact ⟨rfl, by rw [mapLookup_insert_self]; rfl, rfl⟩
  · have hw := @set_key_ok _ s k (rev) (some v)
      (Or.inr heq)
    rw [Store.write, hw]
    exact ⟨rfl, by rw [mapLookup_insert_self], rfl⟩
  · have heq : ((mapLookup k s.data).getD (0, none)).1 = rev.getD 0 := by
      rw [hnone, hrev]
      rfl
    have hw := @set_key_ok _ s k (rev) (some v)
      (Or.inr heq)
    rw [Store.write, hw, heq, hrev]
    rfl

theorem C3_witness :
    ((((Store.new Config.new : Store (Db Nat)).write xPath none
        (Db.Doc 7)).2 = some 1) ∧
     (((Store.new Config.new : Store (Db Nat)).write xPath (some 3)
        (Db.Doc 7)).2 = none)) := by
  constructor
  · exact (C3_write_cas (Store.new Config.new) xPath none (Db.Doc 7)
      (by decide)).2.2 (by decide) rfl
  · exact ((C3_write_cas (Store.new Config.new) xPath (some 3) (Db.Doc 7)
      (by decide)).1 (by decide)).1

/-! ### C9 -/

/-- C9 counterexample: in `LaxDelete` mode a write to a never-seen key
with a non-zero expected rev succeeds (rev 1), so the claim's "for every
store" fails outside strict mode. -/
theorem C9_counterexample :
    mapLookup xPath (Store.new { Config.new with store := Cas.LaxDelete } :
        Store (Db Nat)).data = none ∧
    ((some 5 : Option Nat).getD 0 ≠ 0) ∧
    ((Store.new { Config.new with store := Cas.LaxDelete } :
        Store (Db Nat)).write xPath (some 5) (Db.Doc 1)).2 = some 1 := by
  refine ⟨by decide, by decide, by decide⟩

/-- C9 (amended): in strict mode, a failed CAS mutation of a never-seen
key returns `none` and preserves `seq` and every existing record, but
inserts a `(0, absent)` record for the key, which then shows up in
`keys()` and strict `read`. -/
theorem C9_failed_cas_inserts {V : Type _} (s : Store V) (k : Path)
    (rev : Option Nat) (v : V) (hs : s.config.store = Cas.Strict)
    (hnew : mapLookup k s.data = none) (hrev : rev.getD 0 ≠ 0) :
    ((s.write k rev v).2 = none ∧ (s.write k rev v).1.seq = s.seq ∧
      (∀ k2, k2 ≠ k → mapLookup k2 (s.write k rev v).1.data = mapLookup k2 s.data) ∧
      mapLookup k (s.write k rev v).1.data = some (0, none) ∧
      k ∈ (s.write k rev v).1.keys ∧
      (s.write k rev v).1.read k = some (0, none)) ∧
    ((s.remove k rev).2 = none ∧ (s.remove k rev).1.seq = s.seq ∧
      (∀ k2, k2 ≠ k → mapLookup k2 (s.remove k rev).1.data = mapLookup k2 s.data) ∧
      mapLookup k (s.remove k rev).1.data = some (0, none) ∧
      k ∈ (s.remove k rev).1.keys ∧
      (s.remove k rev).1.read k = some (0, none)) := by
  have hgd : (mapLookup k s.data).getD (0, none) = ((0 : Nat), (none : Option V)) := by
    rw [hnew]
    rfl
  have hcond : ∀ value : Option V, s.set_key k rev value =
      ({ s with data := mapInsert k (0, none) s.data }, none) := by
    intro value
    have := @set_key_fail _ s k (rev) value
      (by rw [is_strict_true hs, Bool.true_or]) (by rw [hgd]; exact fun h => hrev h.symm)
    rw [this, hgd]
  have hmem : k ∈ ({ s with data := mapInsert k ((0 : Nat), (none : Option V)) s.data } :
      Store V).keys :=
    List.mem_map.mpr ⟨(k, (0, none)), mapLookup_mem (mapLookup_insert_self k _ s.data), rfl⟩
  have hread : ({ s with data := mapInsert k ((0 : Nat), (none : Option V)) s.data } :
      Store V).read k = some (0, none) := by
    simp [Store.read, Store.is_strict, hs, mapLookup_insert_self]
  have hw : s.write k rev v = ({ s with data := mapInsert k (0, none) s.data }, none) :=
    hcond (some v)
  have hr : s.remove k rev = ({ s with data := mapInsert k (0, none) s.data }, none) :=
    hcond none
  rw [hw, hr]
  exact ⟨⟨rfl, rfl, fun k2 hk2 => mapLookup_insert_ne hk2 _ s.data,
      mapLookup_insert_self k _ s.data, hmem, hread⟩,
    ⟨rfl, rfl, fun k2 hk2 => mapLookup_insert_ne hk2 _ s.data,
      mapLookup_insert_self k _ s.data, hmem, hread⟩⟩

theorem C9_witness :
    (((Store.new Config.new : Store (Db Nat)).write xPath (some 5)
        (Db.Doc 1)).2 = none) ∧
    xPath ∈ ((Store.new Config.new : Store (Db Nat)).write xPath (some 5)
        (Db.Doc 1)).1.keys := by
  have h := C9_failed_cas_inserts (Store.new Config.new : Store (Db Nat)) xPath
    (some 5) (Db.Doc 1) (by decide) (by decide) (by decide)
  exact ⟨h.1.1, h.1.2.2.2.2.1⟩

/-! ### C10 -/

/-- C10: in strict mode, a cache that (freshly) reads a tombstoned key at
rev `r` memoizes `(r, absent)`, returns `none`, and its next write submits
expected rev `r` and succeeds, recreating the key at rev `r + 1`; by
contrast, after the cache's own successful remove, the memoized entry is
`none`, so the next write submits no expected rev and fails against the
tombstone. -/
theorem C10_cache_tombstone {V : Type _} (c : Cache V) (s : Store V) (k : Path)
    (r : Nat) (v : V) :
    (s.config.store = Cas.Strict → mapLookup k c.data = none →
      mapLookup k s.data = some (r, none) → 1 ≤ r →
      ((c.read s k).1 = none ∧
       mapLookup k (c.read s k).2.data = some (some (r, none)) ∧
       ((c.read s k).2.get_rev k = some r) ∧
       (((c.read s k).2.write s k v).1 = true ∧
        mapLookup k (((c.read s k).2.write s k v).2.2).data = some (r + 1, some v) ∧
        (((c.read s k).2.write s k v).2.2).seq = s.seq + 1))) ∧
    (s.config.store = Cas.Strict → (c.remove s k).1 = true →
      (mapLookup k ((c.remove s k).2.1).data = some none ∧
       ((c.remove s k).2.1).get_rev k = none ∧
       (((c.remove s k).2.1).write ((c.remove s k).2.2) k v).1 = false)) := by
  constructor
  · intro hs hc hsk _hr
    have hread : s.read k = some (r, none) := by
      simp [Store.read, Store.is_strict, hs, hsk]
    have hrd : c.read s k = (none, ⟨mapInsert k (some (r, none)) c.data⟩) := by
      simp only [Cache.read, hc, Option.isSome_none, Bool.false_eq_true, if_false,
        hread, mapLookup_insert_self]
    have hgr : (⟨mapInsert k (some (r, none)) c.data⟩ : Cache V).get_rev k = some r := by
      simp only [Cache.get_rev, mapLookup_insert_self]
    have hgd : (mapLookup k s.data).getD (0, none) = (r, (none : Option V)) := by
      rw [hsk]
      rfl
    have hw : s.write k (some r) v =
        ({ s with data := mapInsert k (r + 1, some v) s.data, seq := s.seq + 1 },
          some (r + 1)) := by
      have := @set_key_ok _ s k (some r) (some v)
        (Or.inr (by rw [hgd]; rfl))
      rw [Store.write, this, hgd]
    have hwr : (⟨mapInsert k (some (r, none)) c.data⟩ : Cache V).write s k v =
        (true,
          ⟨mapInsert k (some (r + 1, some v)) (mapInsert k (some (r, none)) c.data)⟩,
          { s with data := mapInsert k (r + 1, some v) s.data, seq := s.seq + 1 }) := by
      simp only [Cache.write, hgr, hw]
    rw [hrd]
    exact ⟨rfl, mapLookup_insert_self .., hgr, by rw [hwr],
      by rw [hwr]; exact mapLookup_insert_self .., by rw [hwr]⟩
  · intro hs hrm
    rcases hsr : Store.remove s k (c.get_rev k) with ⟨s1, res⟩
    cases res with
    | none =>
      exfalso
      rw [Cache.remove, hsr] at hrm
      simp at hrm
    | some m =>
      have hcr : c.remove s k = (true, ⟨mapInsert k none c.data⟩, s1) := by
        rw [Cache.remove, hsr]
      have hgr : (⟨mapInsert k none c.data⟩ : Cache V).get_rev k = none := by
        simp only [Cache.get_rev, mapLookup_insert_self]
      -- extract the success shape of the store-level remove
      rw [Store.remove, Store.set_key] at hsr
      split at hsr
      · exact absurd (congrArg Prod.snd hsr) (by simp)
      · have hs1 : s1 = { s with
            data := mapInsert k (((mapLookup k s.data).getD (0, none)).1 + 1, none)
              s.data,
            seq := s.seq + 1 } :=
          (congrArg Prod.fst hsr).symm
        have hlk : mapLookup k s1.data =
            some (((mapLookup k s.data).getD (0, none)).1 + 1, none) := by
          rw [hs1]
          exact mapLookup_insert_self ..
        have hfail : s1.write k none v =
            ({ s1 with
                data := mapInsert k ((mapLookup k s1.data).getD (0, none)) s1.data },
              none) := by
          apply set_key_fail
          · have : s1.config = s.config := by rw [hs1]
            rw [Store.is_strict, this, hs]
            simp
          · rw [hlk]
            simp
        have hwr : (⟨mapInsert k none c.data⟩ : Cache V).write s1 k v =
            (false, ⟨mapRemove k (mapInsert k none c.data)⟩,
              ({ s1 with
                data := mapInsert k ((mapLookup k s1.data).getD (0, none)) s1.data })) := by
          simp only [Cache.write, hgr, hfail]
        rw [hcr]
        exact ⟨mapLookup_insert_self .., hgr, by rw [hwr]⟩

theorem C10_witness :
    ((Cache.new.read (((Store.new Config.new : Store (Db Nat)).write xPath none
        (Db.Doc 7)).1.remove xPath (some 1)).1 xPath).1 = none) ∧
    (((((Cache.new.read ((Store.new Config.new : Store (Db Nat)).write xPath none
          (Db.Doc 7)).1 xPath).2.remove ((Store.new Config.new :
          Store (Db Nat)).write xPath none (Db.Doc 7)).1 xPath).2.1).write
        (((Cache.new.read ((Store.new Config.new : Store (Db Nat)).write xPath none
          (Db.Doc 7)).1 xPath).2.remove ((Store.new Config.new :
          Store (Db Nat)).write xPath none (Db.Doc 7)).1 xPath).2.2) xPath
        (Db.Doc 9)).1 = false) := by
  constructor
  · exact ((C10_cache_tombstone Cache.new (((Store.new Config.new :
      Store (Db Nat)).write xPath none (Db.Doc 7)).1.remove xPath (some 1)).1
      xPath 2 (Db.Doc 9)).1 (by decide) (by decide) (by decide) (by decide)).1
  · exact ((C10_cache_tombstone
      (Cache.new.read ((Store.new Config.new : Store (Db Nat)).write xPath none
        (Db.Doc 7)).1 xPath).2
      ((Store.new Config.new : Store (Db Nat)).write xPath none (Db.Doc 7)).1
      xPath 2 (Db.Doc 9)).2 (by decide) (by decide)).2.2



/-! ### C8 -/

theorem check_doc_nil_iff {T : Type _} (s : Store (Db T)) (doc : Path) :
    Checker.check_doc s doc = [] ↔ ∀ dn ∈ doc.links, linkOk s dn := by
  rw [Checker.check_doc, List.flatMap_eq_nil_iff]
  refine forall₂_congr (fun dn _hdn => ?_)
  cases hget : s.get (Path.new dn.1) with
  | none => simp [linkOk, hget]
  | some val =>
    cases val with
    | Doc t => simp [linkOk, hget]
    | Dir entries =>
      by_cases hmem : dn.2 ∈ entries
      · simp [linkOk, hget, hmem]
      · simp [linkOk, hget, hmem]

theorem claimedErrors_nil_iff {T : Type _} (s : Store (Db T)) :
    claimedErrors s = [] ↔
      ∀ k ∈ s.keys, k.is_doc = true → (s.get k).isSome = true →
        ∀ dn ∈ k.links, linkOk s dn := by
  have h1 : claimedErrors s =
      (s.keys.filter (fun p => p.is_doc && (s.get p).isSome)).flatMap
        (Checker.check_doc s) := rfl
  rw [h1, List.flatMap_eq_nil_iff]
  constructor
  · intro h k hk hdoc hsome
    exact (check_doc_nil_iff s k).mp
      (h k (List.mem_filter.mpr ⟨hk, by rw [hdoc, hsome]; rfl⟩))
  · intro h k hk
    have h2 := List.mem_filter.mp hk
    have h3 := Bool.and_eq_true_iff.mp h2.2
    exact (check_doc_nil_iff s k).mpr (h k h2.1 h3.1 h3.2)

/-- C8: for a fresh checker over a store with at least one successful
mutation, `check` returns `Ok` exactly when every link of every present
document is intact, and otherwise returns exactly the list of violation
messages, worded as `Checker::check_doc` words them. -/
theorem C8_checker {T : Type _} (s : Store (Db T)) (hseq : s.seq ≠ 0) :
    ((Checker.check Checker.new s).1 = Except.ok () ↔
      ∀ k ∈ s.keys, k.is_doc = true → (s.get k).isSome = true →
        ∀ dn ∈ k.links, linkOk s dn) ∧
    (∀ errs, (Checker.check Checker.new s).1 = Except.error errs →
      errs = claimedErrors s) := by
  have hne : ¬(Checker.new.seq = s.seq) := fun h => hseq (by
    simpa [Checker.new] using h.symm)
  have hck : Checker.check Checker.new s =
      (if (claimedErrors s).isEmpty then
        (Except.ok (), Checker.mk s.seq (claimedErrors s))
      else (Except.error (claimedErrors s),
        Checker.mk Checker.new.seq (claimedErrors s))) := by
    rw [Checker.check, if_neg hne]
    rfl
  by_cases he : (claimedErrors s).isEmpty
  · rw [hck, if_pos he]
    constructor
    · simpa using (claimedErrors_nil_iff s).mp (List.isEmpty_iff.mp he)
    · intro errs habs
      exact absurd habs (by simp)
  · rw [hck, if_neg he]
    constructor
    · constructor
      · intro habs
        exact absurd habs (by simp)
      · intro hall
        exact absurd (List.isEmpty_iff.mpr ((claimedErrors_nil_iff s).mpr hall)) he
    · intro errs herrs
      simpa using herrs.symm

/-! ### C6 -/

/-- C6: after one actor performs `Rm("/path/to/y.json")` and the three
unlinks (deepest first) over the baseline store, the document is
tombstoned at rev 2, `/path/to/` is an empty directory, `/path/` lists
exactly `x.json`, `/` still lists `path/` at rev 1, and the sibling
document and the key set are untouched. -/
theorem C6_remove_unlink_scenario :
    ((dispatchList (Actor.new Config.new) removeBase removeActs).2.read yPath =
      some (2, none)) ∧
    ((dispatchList (Actor.new Config.new) removeBase removeActs).2.read
      (Path.new "/path/to/") = some (2, some (Db.Dir []))) ∧
    ((dispatchList (Actor.new Config.new) removeBase removeActs).2.read pdirPath =
      some (2, some (Db.Dir ["x.json"]))) ∧
    ((dispatchList (Actor.new Config.new) removeBase removeActs).2.read rootPath =
      some (1, some (Db.Dir ["path/"]))) ∧
    ((dispatchList (Actor.new Config.new) removeBase removeActs).2.read
      (Path.new "/path/x.json") = some (1, some (Db.Doc 1))) ∧
    ((dispatchList (Actor.new Config.new) removeBase removeActs).2.keys =
      [rootPath, pdirPath, Path.new "/path/to/", yPath, Path.new "/path/x.json"]) := by
  refine ⟨by decide, by decide, by decide, by decide, by decide, by decide⟩

/-! ### C7 -/

/-- C7: the crash latch.  A crashed actor dispatches every act as a no-op
(actor, cache and shared store unchanged, `get`/`list` return `none`),
the flag is never cleared by a dispatch, any failing cache write latches
it (also inside `rm`), and every later dispatch of a crashed actor leaves
the store, its contents and `seq` unchanged. -/
theorem C7_crash_latch {T : Type _} (act : Act T) (a : Actor T)
    (s : Store (Db T)) :
    (a.crashed = true → Actor.dispatch a s act = (a, s)) ∧
    ((Actor.dispatch a s act).1.crashed = false → a.crashed = false) ∧
    (∀ key value, (Cache.write a.cache s key value).1 = false →
      (Actor.write a s key value).1.crashed = true) ∧
    (∀ path doc a1 s1, a.crashed = false →
      Actor.get a s path = (some doc, a1, s1) →
      (Cache.remove a1.cache s1 path).1 = false →
      (Actor.rm a s path).1.crashed = true) ∧
    (∀ acts : List (Act T), a.crashed = true →
      acts.foldl (fun p act2 => Actor.dispatch p.1 p.2 act2) (a, s) = (a, s)) ∧
    (a.crashed = true →
      (Actor.get a s act.path).1 = none ∧ (Actor.list a s act.path).1 = none) := by
  have hdispatch : ∀ (act2 : Act T) (b : Actor T) (s2 : Store (Db T)),
      b.crashed = true → Actor.dispatch b s2 act2 = (b, s2) := by
    intro act2 b s2 hb
    rcases act2 with ⟨cid, path, op⟩
    cases op <;>
      simp [Actor.dispatch, Actor.get, Actor.put, Actor.rm, Actor.list,
        Actor.link, Actor.unlink, hb]
  refine ⟨fun h => hdispatch act a s h, ?_, ?_, ?_, ?_, ?_⟩
  · intro h
    by_cases hc : a.crashed = true
    · rw [hdispatch act a s hc] at h
      exact absurd hc (by rw [h]; simp)
    · simpa using hc
  · intro key value hfail
    rcases hw : Cache.write a.cache s key value with ⟨ok, c1, s1⟩
    rw [hw] at hfail
    simp only at hfail
    subst hfail
    simp [Actor.write, hw]
  · intro path doc a1 s1 hnc hget hfail
    rcases hr : Cache.remove a1.cache s1 path with ⟨ok, c2, s2⟩
    rw [hr] at hfail
    simp only at hfail
    subst hfail
    simp [Actor.rm, hnc, hget, hr]
  · intro acts h
    induction acts with
    | nil => rfl
    | cons x xs ih => rw [List.foldl_cons, hdispatch x a s h]; exact ih
  · intro h
    exact ⟨by simp [Actor.get, h], by simp [Actor.list, h]⟩

theorem C7_witness :
    (Actor.dispatch { Actor.new Config.new with crashed := true } conflictBase
      { client_id := "A", path := xPath, op := (Op.Get : Op Nat) } =
      ({ Actor.new Config.new with crashed := true }, conflictBase)) ∧
    ((Actor.get { Actor.new Config.new with crashed := true } conflictBase
      xPath).1 = (none : Option Nat)) := by
  constructor
  · exact (C7_crash_latch { client_id := "A", path := xPath, op := Op.Get }
      { Actor.new Config.new with crashed := true } conflictBase).1 rfl
  · exact ((C7_crash_latch { client_id := "A", path := xPath, op := Op.Get }
      { Actor.new Config.new with crashed := true } conflictBase).2.2.2.2.2
      rfl).1

theorem C8_witness :
    (Checker.check Checker.new conflictBase).1 = Except.ok () := by
  apply (C8_checker conflictBase (by decide)).1.mpr
  intro k hk hdoc _hsome dn hdn
  have hkeys : conflictBase.keys = [rootPath, pdirPath, xPath] := by decide
  rw [hkeys] at hk
  rcases List.mem_cons.mp hk with rfl | hk
  · exact absurd hdoc (by decide)
  rcases List.mem_cons.mp hk with rfl | hk
  · exact absurd hdoc (by decide)
  rcases List.mem_cons.mp hk with rfl | hk
  · have hlinks : xPath.links = [("/", "path/"), ("/path/", "x")] := by decide
    rw [hlinks] at hdn
    rcases List.mem_cons.mp hdn with rfl | hdn
    · exact ⟨["path/"], by decide, by decide⟩
    rcases List.mem_cons.mp hdn with rfl | hdn
    · exact ⟨["x"], by decide, by decide⟩
    · exact absurd hdn (by simp)
  · exact absurd hk (by simp)



/-! ### C5 -/

theorem listOpNodes_length {T : Type _} (id : String) :
    ∀ (dirs : List String) (n0 : Nat), (listOpNodes T id n0 dirs).length = dirs.length := by
  intro dirs
  induction dirs with
  | nil => intro n0; rfl
  | cons d ds ih => intro n0; simp [listOpNodes, ih]

theorem reads_foldl {T : Type _} (id : String) :
    ∀ (dirs : List String) (g : Graph (Act T)) (acc : List Nat),
    (dirs.foldl (fun gr dir =>
      let x := Graph.add gr.1 []
        { client_id := id, path := Path.new dir, op := Op.List }
      (x.1, gr.2 ++ [x.2])) (g, acc)) =
    ({ nodes := g.nodes ++ listOpNodes T id g.nodes.length dirs },
      acc ++ List.range' (g.nodes.length + 1) dirs.length) := by
  intro dirs
  induction dirs with
  | nil => intro g acc; simp [listOpNodes]
  | cons d ds ih =>
    intro g acc
    rw [List.foldl_cons]
    rw [ih]
    refine congrArg₂ Prod.mk ?_ ?_
    · show Graph.mk _ = Graph.mk _
      refine congrArg Graph.mk ?_
      simp [Graph.add, listOpNodes, List.append_assoc]
    · simp [Graph.add, List.range'_succ, List.append_assoc]

theorem do_reads_spec {T : Type _} (id : String) (g : Graph (Act T)) (path : Path) :
    Client.do_reads id g path =
      ({ nodes := g.nodes ++ listOpNodes T id g.nodes.length path.dirs ++
          [{ id := g.nodes.length + path.dirs.length + 1, deps := [],
             value := { client_id := id, path := path, op := Op.Get } }] },
       List.range' (g.nodes.length + 1) (path.dirs.length + 1)) := by
  rw [Client.do_reads, reads_foldl]
  refine congrArg₂ Prod.mk ?_ ?_
  · refine congrArg Graph.mk ?_
    simp [Graph.add, listOpNodes_length, List.append_assoc]
  · simp [Graph.add, listOpNodes_length, List.range'_concat]
    omega

theorem chain_foldl {T : Type _} (id : String) :
    ∀ (links : List (String × String)) (g : Graph (Act T)) (op : Nat),
    op = g.nodes.length →
    (links.foldl (fun gr dn =>
      Graph.add gr.1 [gr.2]
        { client_id := id, path := Path.new dn.1, op := Op.Unlink dn.2 }) (g, op)) =
    ({ nodes := g.nodes ++ unlinkChainNodes T id g.nodes.length links },
      g.nodes.length + links.length) := by
  intro links
  induction links with
  | nil => intro g op hop; simp [unlinkChainNodes, hop]
  | cons dn rest ih =>
    intro g op hop
    rw [List.foldl_cons]
    rw [ih _ _ (by simp [Graph.add])]
    refine congrArg₂ Prod.mk ?_ ?_
    · refine congrArg Graph.mk ?_
      simp [Graph.add, unlinkChainNodes, List.append_assoc, hop]
    · simp [Graph.add]
      omega

/-- C5: under the default configuration, `Client::remove(key)` appends
exactly the remove plan: one depless `List` per parent directory and one
depless `Get`, one `Rm` depending on all those reads, and, walking
`path.links()` in reverse, a chain of `Unlink` acts in which the first
depends only on the `Rm` and each later one only on the previous unlink;
for `"/path/to/y.json"` this is 3 Lists, 1 Get, 1 Rm and the three
unlinks from deepest to shallowest. -/
theorem C5_remove_plan :
    (∀ (T : Type) (id : String) (g : Graph (Act T)) (key : String),
      (Client.remove Config.new id g key).nodes =
        g.nodes ++ removePlanNodes T id g.nodes.length (Path.new key)) ∧
    (Client.remove Config.new "A" Graph.new yKey : Graph (Act Nat)).nodes =
      [{ id := 1, deps := [], value := { client_id := "A", path := rootPath, op := Op.List } },
       { id := 2, deps := [], value := { client_id := "A", path := pdirPath, op := Op.List } },
       { id := 3, deps := [], value := { client_id := "A", path := Path.new "/path/to/", op := Op.List } },
       { id := 4, deps := [], value := { client_id := "A", path := yPath, op := Op.Get } },
       { id := 5, deps := [1, 2, 3, 4], value := { client_id := "A", path := yPath, op := Op.Rm } },
       { id := 6, deps := [5], value := { client_id := "A", path := Path.new "/path/to/", op := Op.Unlink "y.json" } },
       { id := 7, deps := [6], value := { client_id := "A", path := pdirPath, op := Op.Unlink "to/" } },
       { id := 8, deps := [7], value := { client_id := "A", path := rootPath, op := Op.Unlink "path/" } }] := by
  constructor
  · intro T id g key
    rw [Client.remove,
      if_neg (by simp [Config.new] : ¬(Config.new.remove = RemoveMode.UnlinkParallel))]
    rw [Client.remove_unlink_reverse_sequential]
    simp only [do_reads_spec]
    rw [chain_foldl _ _ _ _ (by simp [Graph.add, listOpNodes_length]; omega)]
    simp only [Graph.add]
    simp [removePlanNodes, listOpNodes_length, List.append_assoc]
    exact ⟨by omega, by congr 1⟩
  · rfl



/-! ### C4: the enumerator yields exactly the linear extensions -/

theorem removeAction_length_lt {x : Nat} {nodes : List (Nat × List Nat)}
    (h : ∃ p ∈ nodes, p.1 = x) :
    (removeAction x nodes).length < nodes.length := by
  obtain ⟨p, hp, hpx⟩ := h
  have hpb : (p.1 != x) = false := by simp [hpx]
  simp only [removeAction, List.length_map]
  induction nodes with
  | nil => cases hp
  | cons y ys ih =>
    rcases List.mem_cons.mp hp with rfl | hm2
    · simp only [List.filter_cons, hpb]
      exact Nat.lt_succ_of_le (List.length_filter_le _ ys)
    · simp only [List.filter_cons]
      cases hpy : (y.1 != x)
      · exact Nat.lt_succ_of_lt (ih hm2)
      · simpa using Nat.succ_lt_succ (ih hm2)

theorem permute_nil : permute [] = [[]] := by
  rw [permute]
  rfl

theorem mem_permute_cons {nodes : List (Nat × List Nat)} {l : List Nat}
    (h : nodes ≠ []) :
    l ∈ permute nodes ↔
      ∃ x rest, x ∈ (nodes.filter (fun n => n.2.isEmpty)).map Prod.fst ∧
        rest ∈ permute (removeAction x nodes) ∧ l = x :: rest := by
  rw [permute, if_neg (by simpa [List.isEmpty_iff] using h)]
  simp only [List.mem_flatMap, List.mem_map, List.mem_attach, true_and,
    Subtype.exists]
  constructor
  · rintro ⟨x, hx, rest, hrest, rfl⟩
    exact ⟨x, rest, hx, hrest, rfl⟩
  · rintro ⟨x, rest, hx, hrest, rfl⟩
    exact ⟨x, hx, rest, hrest, rfl⟩

theorem mem_available {nodes : List (Nat × List Nat)} {x : Nat} :
    x ∈ (nodes.filter (fun n => n.2.isEmpty)).map Prod.fst ↔ (x, []) ∈ nodes := by
  simp only [List.mem_map, List.mem_filter]
  constructor
  · rintro ⟨⟨x1, deps⟩, ⟨hmem, hdeps⟩, rfl⟩
    simp only [List.isEmpty_iff] at hdeps
    simpa [hdeps] using hmem
  · intro hmem
    exact ⟨(x, []), ⟨hmem, rfl⟩, rfl⟩

theorem nodeIds_removeAction (x : Nat) (nodes : List (Nat × List Nat)) :
    nodeIds (removeAction x nodes) = (nodeIds nodes).filter (fun i => i != x) := by
  induction nodes with
  | nil => rfl
  | cons y ys ih =>
    cases hy : (y.1 != x) <;>
      simp only [removeAction, nodeIds, List.filter_cons, List.map_cons, hy] at ih ⊢ <;>
      simp [ih]

theorem NodesWF_removeAction {nodes : List (Nat × List Nat)}
    (h : NodesWF nodes) (x : Nat) : NodesWF (removeAction x nodes) := by
  obtain ⟨hnd, hdeps⟩ := h
  constructor
  · rw [nodeIds_removeAction]
    exact hnd.filter _
  · intro p hp d hd
    simp only [removeAction, List.mem_map, List.mem_filter] at hp
    obtain ⟨n, ⟨hn, hnx⟩, rfl⟩ := hp
    have hd2 := List.mem_filter.mp hd
    rw [nodeIds_removeAction]
    exact List.mem_filter.mpr ⟨hdeps n hn d hd2.1, hd2.2⟩

theorem precedes_cons_of {x y a : Nat} {rest : List Nat}
    (h : precedes x y rest) : precedes x y (a :: rest) := by
  obtain ⟨i, j, hij, hx, hy⟩ := h
  refine ⟨⟨i.1 + 1, by simp [Nat.succ_lt_succ_iff, i.2]⟩,
    ⟨j.1 + 1, by simp [Nat.succ_lt_succ_iff, j.2]⟩, by simpa using hij, ?_, ?_⟩
  · simpa using hx
  · simpa using hy

theorem precedes_head {x y : Nat} {rest : List Nat} (h : y ∈ rest) :
    precedes x y (x :: rest) := by
  obtain ⟨i, hi⟩ := List.mem_iff_get.mp h
  refine ⟨⟨0, by simp⟩, ⟨i.1 + 1, by simp [Nat.succ_lt_succ_iff, i.2]⟩,
    by simp, rfl, by simpa using hi⟩

theorem precedes_tail {x y a : Nat} {rest : List Nat} (hx : x ≠ a)
    (h : precedes x y (a :: rest)) : precedes x y rest := by
  obtain ⟨⟨iv, ih2⟩, ⟨jv, jh2⟩, hij, hgx, hgy⟩ := h
  cases iv with
  | zero => exact absurd hgx hx.symm
  | succ iv2 =>
    cases jv with
    | zero => simp at hij
    | succ jv2 =>
      have ih3 : iv2 < rest.length := by simpa [Nat.succ_lt_succ_iff] using ih2
      have jh3 : jv2 < rest.length := by simpa [Nat.succ_lt_succ_iff] using jh2
      refine ⟨⟨iv2, ih3⟩, ⟨jv2, jh3⟩, by simpa using hij, ?_, ?_⟩
      · simpa using hgx
      · simpa using hgy

theorem not_precedes_head {x y : Nat} {rest : List Nat}
    (hnd : (y :: rest).Nodup) (h : precedes x y (y :: rest)) : False := by
  obtain ⟨i, j, hij, hgx, hgy⟩ := h
  have h0 : (y :: rest).get ⟨0, by simp⟩ = y := rfl
  have : j = ⟨0, by simp⟩ := (List.Nodup.get_inj_iff hnd).mp (hgy.trans h0.symm)
  rw [this] at hij
  simp at hij

/-- The soundness + completeness core: membership in `permute` is exactly
being a linear extension, for well-formed node lists. -/
theorem permute_mem_iff : ∀ (nodes : List (Nat × List Nat)), NodesWF nodes →
    ∀ l : List Nat, l ∈ permute nodes ↔ IsLinearExt nodes l := by
  intro nodes hwf l
  by_cases hnil : nodes = []
  · subst hnil
    rw [permute_nil]
    simp only [List.mem_singleton]
    constructor
    · rintro rfl
      exact ⟨by simp [nodeIds], by simp⟩
    · rintro ⟨hperm, _⟩
      exact hperm.eq_nil
  · rw [mem_permute_cons hnil]
    constructor
    · rintro ⟨x, rest, hx, hrest, rfl⟩
      have hxmem : (x, []) ∈ nodes := mem_available.mp hx
      have hxid : x ∈ nodeIds nodes := List.mem_map.mpr ⟨(x, []), hxmem, rfl⟩
      have hwf2 := NodesWF_removeAction hwf x
      have hext := (permute_mem_iff (removeAction x nodes) hwf2 rest).mp hrest
      obtain ⟨hperm, hprec⟩ := hext
      constructor
      · -- x :: rest is a permutation of the ids
        have h1 : List.Perm rest ((nodeIds nodes).filter (fun i => i != x)) := by
          rw [← nodeIds_removeAction]
          exact hperm
        have h2 : (nodeIds nodes).erase x = (nodeIds nodes).filter (fun i => i != x) :=
          List.Nodup.erase_eq_filter hwf.1 x
        refine List.Perm.trans (List.Perm.cons x (h2 ▸ h1)) ?_
        exact (List.perm_cons_erase hxid).symm
      · -- every dependency precedes its dependent
        intro p hp d hd
        by_cases hpx : p.1 = x
        · -- the available node has no deps
          have : p = (x, []) :=
            List.inj_on_of_nodup_map hwf.1 hp hxmem (by simpa using hpx)
          rw [this] at hd
          cases hd
        · by_cases hdx : d = x
          · subst hdx
            -- p.1 occurs in rest
            have hp1 : p.1 ∈ nodeIds (removeAction d nodes) := by
              rw [nodeIds_removeAction]
              exact List.mem_filter.mpr
                ⟨List.mem_map.mpr ⟨p, hp, rfl⟩, by simpa using hpx⟩
            exact precedes_head (hperm.mem_iff.mpr hp1)
          · -- use the inner extension
            have hp2 : (p.1, p.2.filter (fun dd => dd != x)) ∈ removeAction x nodes :=
              List.mem_map.mpr ⟨p, List.mem_filter.mpr ⟨hp, by simpa using hpx⟩, rfl⟩
            have hd2 : d ∈ p.2.filter (fun dd => dd != x) :=
              List.mem_filter.mpr ⟨hd, by simpa using hdx⟩
            exact precedes_cons_of (hprec _ hp2 d hd2)
    · rintro ⟨hperm, hprec⟩
      cases l with
      | nil =>
        exfalso
        have : nodeIds nodes = [] := hperm.symm.eq_nil
        have : nodes = [] := by
          cases nodes with
          | nil => rfl
          | cons y ys => simp [nodeIds] at this
        exact hnil this
      | cons x rest =>
        have hnd : (x :: rest).Nodup := hperm.nodup_iff.mpr hwf.1
        have hxid : x ∈ nodeIds nodes := hperm.mem_iff.mp (List.mem_cons_self x rest)
        obtain ⟨p, hp, hpx⟩ := List.mem_map.mp hxid
        have hpdeps : p.2 = [] := by
          rcases hdeps : p.2 with _ | ⟨d, ds⟩
          · rfl
          · exfalso
            have hd : d ∈ p.2 := by rw [hdeps]; exact List.mem_cons_self d ds
            have := hprec p hp d hd
            rw [hpx] at this
            exact not_precedes_head hnd this
        have hxmem : (x, []) ∈ nodes := by
          have : p = (x, []) := by
            rcases p with ⟨p1, p2⟩
            simp only at hpx hpdeps
            rw [hpx, hpdeps]
          rw [← this]
          exact hp
        refine ⟨x, rest, mem_available.mpr hxmem, ?_, rfl⟩
        have hwf2 := NodesWF_removeAction hwf x
        rw [permute_mem_iff (removeAction x nodes) hwf2 rest]
        constructor
        · -- rest is a permutation of the remaining ids
          have h1 := (List.cons_perm_iff_perm_erase.mp hperm).2
          rw [List.Nodup.erase_eq_filter hwf.1 x] at h1
          rw [nodeIds_removeAction]
          exact h1
        · intro q hq d hd
          simp only [removeAction, List.mem_map, List.mem_filter] at hq
          obtain ⟨n, ⟨hn, hnx⟩, rfl⟩ := hq
          have hd2 := List.mem_filter.mp hd
          have hprec2 := hprec n hn d hd2.1
          exact precedes_tail (by simpa using hd2.2) hprec2
termination_by nodes => nodes.length
decreasing_by
  · exact removeAction_length_lt ⟨(x, []), hxmem, rfl⟩
  · exact removeAction_length_lt ⟨(x, []), hxmem, rfl⟩

theorem available_nodup {nodes : List (Nat × List Nat)}
    (h : (nodeIds nodes).Nodup) :
    ((nodes.filter (fun n => n.2.isEmpty)).map Prod.fst).Nodup :=
  h.sublist ((List.filter_sublist nodes).map Prod.fst)

theorem permute_nodup : ∀ (nodes : List (Nat × List Nat)), NodesWF nodes →
    (permute nodes).Nodup := by
  intro nodes hwf
  by_cases hnil : nodes = []
  · subst hnil
    rw [permute_nil]
    simp
  · rw [permute, if_neg (by simpa [List.isEmpty_iff] using hnil)]
    rw [List.nodup_flatMap]
    constructor
    · intro a _
      exact ((permute_nodup (removeAction a.1 nodes)
        (NodesWF_removeAction hwf a.1)).map
        (fun o1 o2 h12 => by simpa using h12))
    · have hav := available_nodup hwf.1
      have hattach : ((nodes.filter (fun n => n.2.isEmpty)).map Prod.fst).attach.Nodup :=
        List.nodup_attach.mpr hav
      refine hattach.imp ?_
      intro a b hab
      rw [Function.onFun, List.disjoint_left]
      rintro l hla hlb
      obtain ⟨o1, _, rfl⟩ := List.mem_map.mp hla
      obtain ⟨o2, _, heq⟩ := List.mem_map.mp hlb
      refine hab (Subtype.ext ?_)
      have h2 : (b.1 : Nat) :: o2 = a.1 :: o1 := by simpa using heq
      injection h2 with h3 _
      exact h3.symm
termination_by nodes => nodes.length
decreasing_by
  obtain ⟨n, hn, hfst⟩ := List.mem_map.mp a.2
  exact removeAction_length_lt ⟨n, (List.mem_filter.mp hn).1, hfst⟩

theorem nodeIds_of_WF {T : Type _} (g : Graph T) (h : Graph.WF g) :
    nodeIds g.pairs = List.range' 1 g.nodes.length := by
  apply List.ext_getElem
  · simp [nodeIds, Graph.pairs]
  · intro i h1 h2
    have hi : i < g.nodes.length := by simpa [nodeIds, Graph.pairs] using h1
    have hmem : (i, g.nodes[i]) ∈ g.nodes.enum := by
      have hlen : i < g.nodes.enum.length := by simpa
      have he : g.nodes.enum[i] = (i, g.nodes[i]) := by simp
      rw [← he]
      exact List.getElem_mem _
    obtain ⟨hid, _⟩ := h _ hmem
    simp only [nodeIds, Graph.pairs, List.getElem_map, List.getElem_range']
    simp only at hid
    omega

theorem NodesWF_of_WF {T : Type _} (g : Graph T) (h : Graph.WF g) :
    NodesWF g.pairs := by
  constructor
  · rw [nodeIds_of_WF g h]
    exact List.nodup_range' ..
  · intro p hp d hd
    simp only [Graph.pairs, List.mem_map] at hp
    obtain ⟨n, hn, rfl⟩ := hp
    obtain ⟨i, hi, hni⟩ := List.mem_iff_getElem.mp hn
    have hmem : (i, g.nodes[i]) ∈ g.nodes.enum := by
      have hlen : i < g.nodes.enum.length := by simpa
      have he : g.nodes.enum[i] = (i, g.nodes[i]) := by simp
      rw [← he]
      exact List.getElem_mem _
    obtain ⟨hid, hdeps⟩ := h _ hmem
    simp only at hid hdeps
    rw [hni] at hid hdeps
    obtain ⟨h1, h2⟩ := hdeps d hd
    rw [nodeIds_of_WF g h, List.mem_range']
    refine ⟨d - 1, by omega, by omega⟩

/-- C4: for a graph whose dependency lists reference only earlier-added
node ids, `permute` (hence `Graph::orderings`) yields exactly the set of
linear extensions of the dependency DAG, yields no ordering twice, and
yields exactly one empty ordering for the empty graph. -/
theorem C4_orderings_linear_extensions {T : Type _} (g : Graph T)
    (hwf : Graph.WF g) :
    (∀ l, l ∈ permute g.pairs ↔ IsLinearExt g.pairs l) ∧
    (permute g.pairs).Nodup ∧
    (g.nodes = [] → g.orderings = [[]]) := by
  refine ⟨permute_mem_iff g.pairs (NodesWF_of_WF g hwf), permute_nodup g.pairs
    (NodesWF_of_WF g hwf), ?_⟩
  intro hempty
  rw [Graph.orderings]
  have : g.pairs = [] := by simp [Graph.pairs, hempty]
  rw [this, permute_nil]
  rfl

theorem C4_witness : (permute diamondGraph.pairs).Nodup :=
  (C4_orderings_linear_extensions diamondGraph
    (by unfold Graph.WF; decide)).2.1


/-! ### The conflict scenario end-to-end (claim C1) -/


theorem seqPlan_eq : seqPlan =
    [{ client_id := "A", path := rootPath, op := Op.List },
     { client_id := "A", path := pdirPath, op := Op.List },
     { client_id := "A", path := xPath, op := Op.Get },
     { client_id := "A", path := rootPath, op := Op.Link "path/" },
     { client_id := "A", path := pdirPath, op := Op.Link "x" },
     { client_id := "A", path := xPath, op := Op.Put updA },
     { client_id := "B", path := rootPath, op := Op.List },
     { client_id := "B", path := pdirPath, op := Op.List },
     { client_id := "B", path := xPath, op := Op.Get },
     { client_id := "B", path := rootPath, op := Op.Link "path/" },
     { client_id := "B", path := pdirPath, op := Op.Link "x" },
     { client_id := "B", path := xPath, op := Op.Put updB }] := rfl

theorem conflictPairs_eq : conflictGraph.pairs =
    [(1, []), (2, []), (3, []), (4, [1, 2, 3]), (5, [1, 2, 3]), (6, [4, 5]),
     (7, []), (8, []), (9, []), (10, [7, 8, 9]), (11, [7, 8, 9]),
     (12, [10, 11])] := rfl

theorem conflictWF : NodesWF conflictGraph.pairs := by
  rw [conflictPairs_eq]
  unfold NodesWF nodeIds
  decide

theorem mapInsert_rootc {A : Type _} (e o1 o2 o3 : A) :
    mapInsert rootPath e [(rootPath, o1), (pdirPath, o2), (xPath, o3)] =
      [(rootPath, e), (pdirPath, o2), (xPath, o3)] := rfl

theorem mapInsert_pdirc {A : Type _} (e o1 o2 o3 : A) :
    mapInsert pdirPath e [(rootPath, o1), (pdirPath, o2), (xPath, o3)] =
      [(rootPath, o1), (pdirPath, e), (xPath, o3)] := rfl

theorem mapInsert_xc {A : Type _} (e o1 o2 o3 : A) :
    mapInsert xPath e [(rootPath, o1), (pdirPath, o2), (xPath, o3)] =
      [(rootPath, o1), (pdirPath, o2), (xPath, e)] := rfl

theorem mapLookup_rootc {A : Type _} (o1 o2 o3 : A) :
    mapLookup rootPath [(rootPath, o1), (pdirPath, o2), (xPath, o3)] = some o1 := rfl

theorem mapLookup_pdirc {A : Type _} (o1 o2 o3 : A) :
    mapLookup pdirPath [(rootPath, o1), (pdirPath, o2), (xPath, o3)] = some o2 := rfl

theorem mapLookup_xc {A : Type _} (o1 o2 o3 : A) :
    mapLookup xPath [(rootPath, o1), (pdirPath, o2), (xPath, o3)] = some o3 := rfl

/-- Under the store invariant the checker always passes. -/
theorem checker_ok (s : Store (Db Nat)) (hs : conflictStoreInv s) (c : Checker) :
    (Checker.check c s).1 = Except.ok () := by
  obtain ⟨hcfg, r0, r1, r2, v, hdata, hr2, hv⟩ := hs
  rw [Checker.check]
  by_cases hseq : c.seq = s.seq
  · rw [if_pos hseq]
  · rw [if_neg hseq]
    have hkeys : s.keys = [rootPath, pdirPath, xPath] := by
      rw [Store.keys, hdata]
      rfl
    have hgetx : s.get xPath = some (Db.Doc v) := by
      rw [Store.get, hdata, mapLookup_xc]
    have hgroot : s.get (Path.new "/") = some (Db.Dir ["path/"]) := by
      rw [Store.get, hdata]
      rfl
    have hgpdir : s.get (Path.new "/path/") = some (Db.Dir ["x"]) := by
      rw [Store.get, hdata]
      rfl
    have hfilter : s.keys.filter (fun p => p.is_doc && (s.get p).isSome) = [xPath] := by
      rw [hkeys]
      simp only [List.filter_cons, List.filter_nil]
      rw [hgetx]
      rfl
    have hdoc : Checker.check_doc s xPath = [] := by
      rw [Checker.check_doc]
      have hlinks : xPath.links = [("/", "path/"), ("/path/", "x")] := by decide
      rw [hlinks]
      simp only [List.flatMap_cons, List.flatMap_nil]
      rw [show Path.new ("/", "path/").1 = Path.new "/" from rfl, hgroot]
      rw [show Path.new ("/path/", "x").1 = Path.new "/path/" from rfl, hgpdir]
      simp
    have herr : (s.keys.filter (fun p => p.is_doc && (s.get p).isSome)).flatMap
        (Checker.check_doc s) = [] := by
      rw [hfilter]
      simp [hdoc]
    simp only [herr]
    rfl

theorem cacheInv_insert {c : Cache (Db Nat)} (hc : conflictCacheInv c) {k : Path}
    {e : Option (Nat × Option (Db Nat))}
    (he : (k = rootPath → ∃ r, e = some (r, some (Db.Dir ["path/"]))) ∧
          (k = pdirPath → ∃ r, e = some (r, some (Db.Dir ["x"]))) ∧
          (k = xPath → ∃ r w, e = some (r, some (Db.Doc w)))) :
    conflictCacheInv ⟨mapInsert k e c.data⟩ := by
  intro kv hkv
  rcases mem_mapInsert hkv with rfl | hkv2
  · exact he
  · exact hc kv hkv2

theorem cacheInv_remove {c : Cache (Db Nat)} (hc : conflictCacheInv c) (k : Path) :
    conflictCacheInv ⟨mapRemove k c.data⟩ :=
  fun kv hkv => hc kv (mem_mapRemove hkv)

theorem store_strict {s : Store (Db Nat)} (hs : conflictStoreInv s) :
    s.is_strict = true :=
  is_strict_true (by rw [hs.1]; rfl)

theorem cache_read_rootc (c : Cache (Db Nat)) (s : Store (Db Nat))
    (hs : conflictStoreInv s) (hc : conflictCacheInv c) :
    ∃ r c1, Cache.read c s rootPath = (some (Db.Dir ["path/"]), c1) ∧
      conflictCacheInv c1 ∧
      mapLookup rootPath c1.data = some (some (r, some (Db.Dir ["path/"]))) := by
  obtain ⟨hcfg, r0, r1, r2, v, hdata, hr2, hv⟩ := hs
  cases hlk : mapLookup rootPath c.data with
  | none =>
    have hread : s.read rootPath = some (r0, some (Db.Dir ["path/"])) := by
      rw [Store.read, if_pos (store_strict ⟨hcfg, r0, r1, r2, v, hdata, hr2, hv⟩),
        hdata, mapLookup_rootc]
    refine ⟨r0, ⟨mapInsert rootPath (some (r0, some (Db.Dir ["path/"]))) c.data⟩,
      ?_, ?_, mapLookup_insert_self ..⟩
    · rw [Cache.read]
      simp only [hlk, Option.isSome_none, Bool.false_eq_true, if_false, hread,
        mapLookup_insert_self]
    · exact cacheInv_insert hc
        ⟨fun _ => ⟨r0, rfl⟩,
         fun habs => absurd habs (by decide),
         fun habs => absurd habs (by decide)⟩
  | some e =>
    obtain ⟨rr, he⟩ := (hc (rootPath, e) (mapLookup_mem hlk)).1 rfl
    subst he
    refine ⟨rr, c, ?_, hc, hlk⟩
    rw [Cache.read]
    simp only [hlk, Option.isSome_some, if_true]

theorem cache_read_pdirc (c : Cache (Db Nat)) (s : Store (Db Nat))
    (hs : conflictStoreInv s) (hc : conflictCacheInv c) :
    ∃ r c1, Cache.read c s pdirPath = (some (Db.Dir ["x"]), c1) ∧
      conflictCacheInv c1 ∧
      mapLookup pdirPath c1.data = some (some (r, some (Db.Dir ["x"]))) := by
  obtain ⟨hcfg, r0, r1, r2, v, hdata, hr2, hv⟩ := hs
  cases hlk : mapLookup pdirPath c.data with
  | none =>
    have hread : s.read pdirPath = some (r1, some (Db.Dir ["x"])) := by
      rw [Store.read, if_pos (store_strict ⟨hcfg, r0, r1, r2, v, hdata, hr2, hv⟩),
        hdata, mapLookup_pdirc]
    refine ⟨r1, ⟨mapInsert pdirPath (some (r1, some (Db.Dir ["x"]))) c.data⟩,
      ?_, ?_, mapLookup_insert_self ..⟩
    · rw [Cache.read]
      simp only [hlk, Option.isSome_none, Bool.false_eq_true, if_false, hread,
        mapLookup_insert_self]
    · exact cacheInv_insert hc
        ⟨fun habs => absurd habs (by decide),
         fun _ => ⟨r1, rfl⟩,
         fun habs => absurd habs (by decide)⟩
  | some e =>
    obtain ⟨rr, he⟩ := (hc (pdirPath, e) (mapLookup_mem hlk)).2.1 rfl
    subst he
    refine ⟨rr, c, ?_, hc, hlk⟩
    rw [Cache.read]
    simp only [hlk, Option.isSome_some, if_true]

theorem cache_read_xcases (c : Cache (Db Nat)) (s : Store (Db Nat))
    (hs : conflictStoreInv s) (hc : conflictCacheInv c) :
    ∃ r w c1, Cache.read c s xPath = (some (Db.Doc w), c1) ∧
      conflictCacheInv c1 ∧
      mapLookup xPath c1.data = some (some (r, some (Db.Doc w))) := by
  obtain ⟨hcfg, r0, r1, r2, v, hdata, hr2, hv⟩ := hs
  cases hlk : mapLookup xPath c.data with
  | none =>
    have hread : s.read xPath = some (r2, some (Db.Doc v)) := by
      rw [Store.read, if_pos (store_strict ⟨hcfg, r0, r1, r2, v, hdata, hr2, hv⟩),
        hdata, mapLookup_xc]
    refine ⟨r2, v, ⟨mapInsert xPath (some (r2, some (Db.Doc v))) c.data⟩,
      ?_, ?_, mapLookup_insert_self ..⟩
    · rw [Cache.read]
      simp only [hlk, Option.isSome_none, Bool.false_eq_true, if_false, hread,
        mapLookup_insert_self]
    · exact cacheInv_insert hc
        ⟨fun habs => absurd habs (by decide),
         fun habs => absurd habs (by decide),
         fun _ => ⟨r2, v, rfl⟩⟩
  | some e =>
    obtain ⟨rr, w, he⟩ := (hc (xPath, e) (mapLookup_mem hlk)).2.2 rfl
    subst he
    refine ⟨rr, w, c, ?_, hc, hlk⟩
    rw [Cache.read]
    simp only [hlk, Option.isSome_some, if_true]

theorem get_rev_of_lookup {c : Cache (Db Nat)} {k : Path} {r : Nat}
    {vv : Option (Db Nat)} (h : mapLookup k c.data = some (some (r, vv))) :
    c.get_rev k = some r := by
  rw [Cache.get_rev, h]

theorem actor_list_rootc (a : Actor Nat) (s : Store (Db Nat))
    (hs : conflictStoreInv s) (ha : conflictActorInv a) (hcr : a.crashed = false) :
    ∃ r c1, Actor.list a s rootPath =
        (some ["path/"], { a with cache := c1 }, s) ∧
      conflictCacheInv c1 ∧
      mapLookup rootPath c1.data = some (some (r, some (Db.Dir ["path/"]))) := by
  obtain ⟨r, c1, hread, hc1, hlk⟩ := cache_read_rootc a.cache s hs ha.2
  refine ⟨r, c1, ?_, hc1, hlk⟩
  rw [Actor.list, if_neg (by rw [hcr]; simp), hread]

theorem actor_list_pdirc (a : Actor Nat) (s : Store (Db Nat))
    (hs : conflictStoreInv s) (ha : conflictActorInv a) (hcr : a.crashed = false) :
    ∃ r c1, Actor.list a s pdirPath =
        (some ["x"], { a with cache := c1 }, s) ∧
      conflictCacheInv c1 ∧
      mapLookup pdirPath c1.data = some (some (r, some (Db.Dir ["x"]))) := by
  obtain ⟨r, c1, hread, hc1, hlk⟩ := cache_read_pdirc a.cache s hs ha.2
  refine ⟨r, c1, ?_, hc1, hlk⟩
  rw [Actor.list, if_neg (by rw [hcr]; simp), hread]

theorem actor_get_xc (a : Actor Nat) (s : Store (Db Nat))
    (hs : conflictStoreInv s) (ha : conflictActorInv a) (hcr : a.crashed = false) :
    ∃ r w c1, Actor.get a s xPath = (some w, { a with cache := c1 }, s) ∧
      conflictCacheInv c1 ∧
      mapLookup xPath c1.data = some (some (r, some (Db.Doc w))) := by
  obtain ⟨r, w, c1, hread, hc1, hlk⟩ := cache_read_xcases a.cache s hs ha.2
  refine ⟨r, w, c1, ?_, hc1, hlk⟩
  rw [Actor.get, if_neg (by rw [hcr]; simp), hread]

theorem xrevS_inv {s : Store (Db Nat)} {r0 r1 r2 : Nat} {v : Nat}
    (hdata : s.data = [(rootPath, (r0, some (Db.Dir ["path/"]))),
      (pdirPath, (r1, some (Db.Dir ["x"]))),
      (xPath, (r2, some (Db.Doc v)))]) : xrevS s = r2 := by
  rw [xrevS, hdata, mapLookup_xc]
  rfl

theorem actor_write_rootc (a : Actor Nat) (s : Store (Db Nat))
    (hs : conflictStoreInv s) (ha : conflictActorInv a) (rc : Nat)
    (hlk : mapLookup rootPath a.cache.data =
      some (some (rc, some (Db.Dir ["path/"])))) :
    conflictStoreInv (Actor.write a s rootPath (Db.Dir ["path/"])).2 ∧
    conflictActorInv (Actor.write a s rootPath (Db.Dir ["path/"])).1 ∧
    xrevS (Actor.write a s rootPath (Db.Dir ["path/"])).2 = xrevS s := by
  obtain ⟨hcfg, r0, r1, r2, v, hdata, hr2, hv⟩ := hs
  have hstrict : s.is_strict = true :=
    store_strict ⟨hcfg, r0, r1, r2, v, hdata, hr2, hv⟩
  have hgr : a.cache.get_rev rootPath = some rc := get_rev_of_lookup hlk
  have hentry : (mapLookup rootPath s.data).getD (0, none) =
      (r0, some (Db.Dir ["path/"])) := by
    rw [hdata, mapLookup_rootc]
    rfl
  have hxrev : xrevS s = r2 := xrevS_inv hdata
  by_cases hre : r0 = rc
  · have hok := @set_key_ok _ s rootPath (some rc)
      (some (Db.Dir ["path/"])) (Or.inr (by rw [hentry]; simpa using hre))
    have hw : s.write rootPath (some rc) (Db.Dir ["path/"]) =
        ({ s with
            data := mapInsert rootPath (r0 + 1, some (Db.Dir ["path/"])) s.data,
            seq := s.seq + 1 }, some (r0 + 1)) := by
      rw [Store.write, hok, hentry]
    have hcw : Cache.write a.cache s rootPath (Db.Dir ["path/"]) =
        (true,
          ⟨mapInsert rootPath (some (r0 + 1, some (Db.Dir ["path/"]))) a.cache.data⟩,
          { s with
            data := mapInsert rootPath (r0 + 1, some (Db.Dir ["path/"])) s.data,
            seq := s.seq + 1 }) := by
      rw [Cache.write, hgr, hw]
    have haw : Actor.write a s rootPath (Db.Dir ["path/"]) =
        ({ a with cache :=
            ⟨mapInsert rootPath (some (r0 + 1, some (Db.Dir ["path/"]))) a.cache.data⟩ },
          { s with
            data := mapInsert rootPath (r0 + 1, some (Db.Dir ["path/"])) s.data,
            seq := s.seq + 1 }) := by
      rw [Actor.write, hcw]
    rw [haw]
    refine ⟨⟨hcfg, r0 + 1, r1, r2, v, by rw [hdata, mapInsert_rootc], hr2, hv⟩,
      ⟨ha.1, cacheInv_insert ha.2
        ⟨fun _ => ⟨r0 + 1, rfl⟩,
         fun habs => absurd habs (by decide),
         fun habs => absurd habs (by decide)⟩⟩, ?_⟩
    rw [hxrev, xrevS]
    show ((mapLookup xPath (mapInsert rootPath _ s.data)).getD (0, none)).1 = r2
    rw [hdata, mapInsert_rootc, mapLookup_xc]
    rfl
  · have hfail := @set_key_fail _ s rootPath (some rc)
      (some (Db.Dir ["path/"]))
      (by rw [hstrict, Bool.true_or]) (by rw [hentry]; simpa using hre)
    have hw : s.write rootPath (some rc) (Db.Dir ["path/"]) =
        ({ s with
            data := mapInsert rootPath (r0, some (Db.Dir ["path/"])) s.data },
          none) := by
      rw [Store.write, hfail, hentry]
    have hcw : Cache.write a.cache s rootPath (Db.Dir ["path/"]) =
        (false, ⟨mapRemove rootPath a.cache.data⟩,
          { s with
            data := mapInsert rootPath (r0, some (Db.Dir ["path/"])) s.data }) := by
      rw [Cache.write, hgr, hw]
    have haw : Actor.write a s rootPath (Db.Dir ["path/"]) =
        ({ a with cache := ⟨mapRemove rootPath a.cache.data⟩, crashed := true },
          { s with
            data := mapInsert rootPath (r0, some (Db.Dir ["path/"])) s.data }) := by
      rw [Actor.write, hcw]
    rw [haw]
    refine ⟨⟨hcfg, r0, r1, r2, v, by rw [hdata, mapInsert_rootc], hr2, hv⟩,
      ⟨ha.1, cacheInv_remove ha.2 rootPath⟩, ?_⟩
    rw [hxrev, xrevS]
    show ((mapLookup xPath (mapInsert rootPath _ s.data)).getD (0, none)).1 = r2
    rw [hdata, mapInsert_rootc, mapLookup_xc]
    rfl

theorem actor_write_pdirc (a : Actor Nat) (s : Store (Db Nat))
    (hs : conflictStoreInv s) (ha : conflictActorInv a) (rc : Nat)
    (hlk : mapLookup pdirPath a.cache.data =
      some (some (rc, some (Db.Dir ["x"])))) :
    conflictStoreInv (Actor.write a s pdirPath (Db.Dir ["x"])).2 ∧
    conflictActorInv (Actor.write a s pdirPath (Db.Dir ["x"])).1 ∧
    xrevS (Actor.write a s pdirPath (Db.Dir ["x"])).2 = xrevS s := by
  obtain ⟨hcfg, r0, r1, r2, v, hdata, hr2, hv⟩ := hs
  have hstrict : s.is_strict = true :=
    store_strict ⟨hcfg, r0, r1, r2, v, hdata, hr2, hv⟩
  have hgr : a.cache.get_rev pdirPath = some rc := get_rev_of_lookup hlk
  have hentry : (mapLookup pdirPath s.data).getD (0, none) =
      (r1, some (Db.Dir ["x"])) := by
    rw [hdata, mapLookup_pdirc]
    rfl
  have hxrev : xrevS s = r2 := xrevS_inv hdata
  by_cases hre : r1 = rc
  · have hok := @set_key_ok _ s pdirPath (some rc)
      (some (Db.Dir ["x"])) (Or.inr (by rw [hentry]; simpa using hre))
    have hw : s.write pdirPath (some rc) (Db.Dir ["x"]) =
        ({ s with
            data := mapInsert pdirPath (r1 + 1, some (Db.Dir ["x"])) s.data,
            seq := s.seq + 1 }, some (r1 + 1)) := by
      rw [Store.write, hok, hentry]
    have hcw : Cache.write a.cache s pdirPath (Db.Dir ["x"]) =
        (true,
          ⟨mapInsert pdirPath (some (r1 + 1, some (Db.Dir ["x"]))) a.cache.data⟩,
          { s with
            data := mapInsert pdirPath (r1 + 1, some (Db.Dir ["x"])) s.data,
            seq := s.seq + 1 }) := by
      rw [Cache.write, hgr, hw]
    have haw : Actor.write a s pdirPath (Db.Dir ["x"]) =
        ({ a with cache :=
            ⟨mapInsert pdirPath (some (r1 + 1, some (Db.Dir ["x"]))) a.cache.data⟩ },
          { s with
            data := mapInsert pdirPath (r1 + 1, some (Db.Dir ["x"])) s.data,
            seq := s.seq + 1 }) := by
      rw [Actor.write, hcw]
    rw [haw]
    refine ⟨⟨hcfg, r0, r1 + 1, r2, v, by rw [hdata, mapInsert_pdirc], hr2, hv⟩,
      ⟨ha.1, cacheInv_insert ha.2
        ⟨fun habs => absurd habs (by decide),
         fun _ => ⟨r1 + 1, rfl⟩,
         fun habs => absurd habs (by decide)⟩⟩, ?_⟩
    rw [hxrev, xrevS]
    show ((mapLookup xPath (mapInsert pdirPath _ s.data)).getD (0, none)).1 = r2
    rw [hdata, mapInsert_pdirc, mapLookup_xc]
    rfl
  · have hfail := @set_key_fail _ s pdirPath (some rc)
      (some (Db.Dir ["x"]))
      (by rw [hstrict, Bool.true_or]) (by rw [hentry]; simpa using hre)
    have hw : s.write pdirPath (some rc) (Db.Dir ["x"]) =
        ({ s with
            data := mapInsert pdirPath (r1, some (Db.Dir ["x"])) s.data },
          none) := by
      rw [Store.write, hfail, hentry]
    have hcw : Cache.write a.cache s pdirPath (Db.Dir ["x"]) =
        (false, ⟨mapRemove pdirPath a.cache.data⟩,
          { s with
            data := mapInsert pdirPath (r1, some (Db.Dir ["x"])) s.data }) := by
      rw [Cache.write, hgr, hw]
    have haw : Actor.write a s pdirPath (Db.Dir ["x"]) =
        ({ a with cache := ⟨mapRemove pdirPath a.cache.data⟩, crashed := true },
          { s with
            data := mapInsert pdirPath (r1, some (Db.Dir ["x"])) s.data }) := by
      rw [Actor.write, hcw]
    rw [haw]
    refine ⟨⟨hcfg, r0, r1, r2, v, by rw [hdata, mapInsert_pdirc], hr2, hv⟩,
      ⟨ha.1, cacheInv_remove ha.2 pdirPath⟩, ?_⟩
    rw [hxrev, xrevS]
    show ((mapLookup xPath (mapInsert pdirPath _ s.data)).getD (0, none)).1 = r2
    rw [hdata, mapInsert_pdirc, mapLookup_xc]
    rfl

theorem actor_write_xcases (a : Actor Nat) (s : Store (Db Nat))
    (hs : conflictStoreInv s) (ha : conflictActorInv a) (rc w w2 : Nat)
    (hw2 : w2 = 1 ∨ w2 = 2 ∨ w2 = 3)
    (hlk : mapLookup xPath a.cache.data = some (some (rc, some (Db.Doc w)))) :
    conflictStoreInv (Actor.write a s xPath (Db.Doc w2)).2 ∧
    conflictActorInv (Actor.write a s xPath (Db.Doc w2)).1 ∧
    xrevS (Actor.write a s xPath (Db.Doc w2)).2 ≤ xrevS s + 1 := by
  obtain ⟨hcfg, r0, r1, r2, v, hdata, hr2, hv⟩ := hs
  have hstrict : s.is_strict = true :=
    store_strict ⟨hcfg, r0, r1, r2, v, hdata, hr2, hv⟩
  have hgr : a.cache.get_rev xPath = some rc := get_rev_of_lookup hlk
  have hentry : (mapLookup xPath s.data).getD (0, none) =
      (r2, some (Db.Doc v)) := by
    rw [hdata, mapLookup_xc]
    rfl
  have hxrev : xrevS s = r2 := xrevS_inv hdata
  by_cases hre : r2 = rc
  · have hok := @set_key_ok _ s xPath (some rc)
      (some (Db.Doc w2)) (Or.inr (by rw [hentry]; simpa using hre))
    have hw : s.write xPath (some rc) (Db.Doc w2) =
        ({ s with
            data := mapInsert xPath (r2 + 1, some (Db.Doc w2)) s.data,
            seq := s.seq + 1 }, some (r2 + 1)) := by
      rw [Store.write, hok, hentry]
    have hcw : Cache.write a.cache s xPath (Db.Doc w2) =
        (true,
          ⟨mapInsert xPath (some (r2 + 1, some (Db.Doc w2))) a.cache.data⟩,
          { s with
            data := mapInsert xPath (r2 + 1, some (Db.Doc w2)) s.data,
            seq := s.seq + 1 }) := by
      rw [Cache.write, hgr, hw]
    have haw : Actor.write a s xPath (Db.Doc w2) =
        ({ a with cache :=
            ⟨mapInsert xPath (some (r2 + 1, some (Db.Doc w2))) a.cache.data⟩ },
          { s with
            data := mapInsert xPath (r2 + 1, some (Db.Doc w2)) s.data,
            seq := s.seq + 1 }) := by
      rw [Actor.write, hcw]
    rw [haw]
    refine ⟨⟨hcfg, r0, r1, r2 + 1, w2, by rw [hdata, mapInsert_xc],
        Nat.le_add_left 1 r2, hw2⟩,
      ⟨ha.1, cacheInv_insert ha.2
        ⟨fun habs => absurd habs (by decide),
         fun habs => absurd habs (by decide),
         fun _ => ⟨r2 + 1, w2, rfl⟩⟩⟩, ?_⟩
    rw [hxrev, xrevS]
    show ((mapLookup xPath (mapInsert xPath _ s.data)).getD (0, none)).1 ≤ r2 + 1
    rw [hdata, mapInsert_xc, mapLookup_xc]
    exact Nat.le_refl (r2 + 1)
  · have hfail := @set_key_fail _ s xPath (some rc)
      (some (Db.Doc w2))
      (by rw [hstrict, Bool.true_or]) (by rw [hentry]; simpa using hre)
    have hw : s.write xPath (some rc) (Db.Doc w2) =
        ({ s with
            data := mapInsert xPath (r2, some (Db.Doc v)) s.data },
          none) := by
      rw [Store.write, hfail, hentry]
    have hcw : Cache.write a.cache s xPath (Db.Doc w2) =
        (false, ⟨mapRemove xPath a.cache.data⟩,
          { s with
            data := mapInsert xPath (r2, some (Db.Doc v)) s.data }) := by
      rw [Cache.write, hgr, hw]
    have haw : Actor.write a s xPath (Db.Doc w2) =
        ({ a with cache := ⟨mapRemove xPath a.cache.data⟩, crashed := true },
          { s with
            data := mapInsert xPath (r2, some (Db.Doc v)) s.data }) := by
      rw [Actor.write, hcw]
    rw [haw]
    refine ⟨⟨hcfg, r0, r1, r2, v, by rw [hdata, mapInsert_xc], hr2, hv⟩,
      ⟨ha.1, cacheInv_remove ha.2 xPath⟩, ?_⟩
    rw [hxrev, xrevS]
    show ((mapLookup xPath (mapInsert xPath _ s.data)).getD (0, none)).1 ≤ r2 + 1
    rw [hdata, mapInsert_xc, mapLookup_xc]
    exact Nat.le_succ r2

theorem dispatch_list_root (a : Actor Nat) (s : Store (Db Nat)) (cid : String)
    (hs : conflictStoreInv s) (ha : conflictActorInv a) :
    conflictStoreInv (Actor.dispatch a s
      { client_id := cid, path := rootPath, op := Op.List }).2 ∧
    conflictActorInv (Actor.dispatch a s
      { client_id := cid, path := rootPath, op := Op.List }).1 ∧
    xrevS (Actor.dispatch a s
      { client_id := cid, path := rootPath, op := Op.List }).2 = xrevS s := by
  by_cases hcr : a.crashed = true
  · have hnoop : Actor.dispatch a s
        { client_id := cid, path := rootPath, op := Op.List } = (a, s) := by
      simp [Actor.dispatch, Actor.list, hcr]
    rw [hnoop]
    exact ⟨hs, ha, rfl⟩
  · have hcr2 : a.crashed = false := by simpa using hcr
    obtain ⟨r, c1, hlist, hc1, hlk⟩ := actor_list_rootc a s hs ha hcr2
    have hdisp : Actor.dispatch a s
        { client_id := cid, path := rootPath, op := Op.List } =
        ({ a with cache := c1 }, s) := by
      simp only [Actor.dispatch]
      rw [hlist]
    rw [hdisp]
    exact ⟨hs, ⟨ha.1, hc1⟩, rfl⟩

theorem dispatch_list_pdir (a : Actor Nat) (s : Store (Db Nat)) (cid : String)
    (hs : conflictStoreInv s) (ha : conflictActorInv a) :
    conflictStoreInv (Actor.dispatch a s
      { client_id := cid, path := pdirPath, op := Op.List }).2 ∧
    conflictActorInv (Actor.dispatch a s
      { client_id := cid, path := pdirPath, op := Op.List }).1 ∧
    xrevS (Actor.dispatch a s
      { client_id := cid, path := pdirPath, op := Op.List }).2 = xrevS s := by
  by_cases hcr : a.crashed = true
  · have hnoop : Actor.dispatch a s
        { client_id := cid, path := pdirPath, op := Op.List } = (a, s) := by
      simp [Actor.dispatch, Actor.list, hcr]
    rw [hnoop]
    exact ⟨hs, ha, rfl⟩
  · have hcr2 : a.crashed = false := by simpa using hcr
    obtain ⟨r, c1, hlist, hc1, hlk⟩ := actor_list_pdirc a s hs ha hcr2
    have hdisp : Actor.dispatch a s
        { client_id := cid, path := pdirPath, op := Op.List } =
        ({ a with cache := c1 }, s) := by
      simp only [Actor.dispatch]
      rw [hlist]
    rw [hdisp]
    exact ⟨hs, ⟨ha.1, hc1⟩, rfl⟩

theorem dispatch_get_x (a : Actor Nat) (s : Store (Db Nat)) (cid : String)
    (hs : conflictStoreInv s) (ha : conflictActorInv a) :
    conflictStoreInv (Actor.dispatch a s
      { client_id := cid, path := xPath, op := Op.Get }).2 ∧
    conflictActorInv (Actor.dispatch a s
      { client_id := cid, path := xPath, op := Op.Get }).1 ∧
    xrevS (Actor.dispatch a s
      { client_id := cid, path := xPath, op := Op.Get }).2 = xrevS s := by
  by_cases hcr : a.crashed = true
  · have hnoop : Actor.dispatch a s
        { client_id := cid, path := xPath, op := Op.Get } = (a, s) := by
      simp [Actor.dispatch, Actor.get, hcr]
    rw [hnoop]
    exact ⟨hs, ha, rfl⟩
  · have hcr2 : a.crashed = false := by simpa using hcr
    obtain ⟨r, w, c1, hget, hc1, hlk⟩ := actor_get_xc a s hs ha hcr2
    have hdisp : Actor.dispatch a s
        { client_id := cid, path := xPath, op := Op.Get } =
        ({ a with cache := c1 }, s) := by
      simp only [Actor.dispatch]
      rw [hget]
    rw [hdisp]
    exact ⟨hs, ⟨ha.1, hc1⟩, rfl⟩

theorem dispatch_link_root (a : Actor Nat) (s : Store (Db Nat)) (cid : String)
    (hs : conflictStoreInv s) (ha : conflictActorInv a) :
    conflictStoreInv (Actor.dispatch a s
      { client_id := cid, path := rootPath, op := Op.Link "path/" }).2 ∧
    conflictActorInv (Actor.dispatch a s
      { client_id := cid, path := rootPath, op := Op.Link "path/" }).1 ∧
    xrevS (Actor.dispatch a s
      { client_id := cid, path := rootPath, op := Op.Link "path/" }).2 = xrevS s := by
  by_cases hcr : a.crashed = true
  · have hnoop : Actor.dispatch a s
        { client_id := cid, path := rootPath, op := Op.Link "path/" } = (a, s) := by
      simp [Actor.dispatch, Actor.link, hcr]
    rw [hnoop]
    exact ⟨hs, ha, rfl⟩
  · have hcr2 : a.crashed = false := by simpa using hcr
    obtain ⟨r, c1, hlist, hc1, hlk⟩ := actor_list_rootc a s hs ha hcr2
    have hdisp : Actor.dispatch a s
        { client_id := cid, path := rootPath, op := Op.Link "path/" } =
        Actor.write { a with cache := c1 } s rootPath (Db.Dir ["path/"]) := by
      simp only [Actor.dispatch]
      rw [Actor.link, if_neg (by rw [hcr2]; simp), hlist]
      simp only [ha.1]
      rfl
    rw [hdisp]
    have h3 := actor_write_rootc { a with cache := c1 } s hs ⟨ha.1, hc1⟩ r hlk
    exact ⟨h3.1, h3.2.1, h3.2.2⟩

theorem dispatch_link_pdir (a : Actor Nat) (s : Store (Db Nat)) (cid : String)
    (hs : conflictStoreInv s) (ha : conflictActorInv a) :
    conflictStoreInv (Actor.dispatch a s
      { client_id := cid, path := pdirPath, op := Op.Link "x" }).2 ∧
    conflictActorInv (Actor.dispatch a s
      { client_id := cid, path := pdirPath, op := Op.Link "x" }).1 ∧
    xrevS (Actor.dispatch a s
      { client_id := cid, path := pdirPath, op := Op.Link "x" }).2 = xrevS s := by
  by_cases hcr : a.crashed = true
  · have hnoop : Actor.dispatch a s
        { client_id := cid, path := pdirPath, op := Op.Link "x" } = (a, s) := by
      simp [Actor.dispatch, Actor.link, hcr]
    rw [hnoop]
    exact ⟨hs, ha, rfl⟩
  · have hcr2 : a.crashed = false := by simpa using hcr
    obtain ⟨r, c1, hlist, hc1, hlk⟩ := actor_list_pdirc a s hs ha hcr2
    have hdisp : Actor.dispatch a s
        { client_id := cid, path := pdirPath, op := Op.Link "x" } =
        Actor.write { a with cache := c1 } s pdirPath (Db.Dir ["x"]) := by
      simp only [Actor.dispatch]
      rw [Actor.link, if_neg (by rw [hcr2]; simp), hlist]
      simp only [ha.1]
      rfl
    rw [hdisp]
    have h3 := actor_write_pdirc { a with cache := c1 } s hs ⟨ha.1, hc1⟩ r hlk
    exact ⟨h3.1, h3.2.1, h3.2.2⟩

theorem dispatch_put_x (a : Actor Nat) (s : Store (Db Nat)) (cid : String)
    (f : Option Nat → Option Nat) (w2 : Nat) (hw2 : w2 = 1 ∨ w2 = 2 ∨ w2 = 3)
    (hf : ∀ x, f x = some w2)
    (hs : conflictStoreInv s) (ha : conflictActorInv a) :
    conflictStoreInv (Actor.dispatch a s
      { client_id := cid, path := xPath, op := Op.Put f }).2 ∧
    conflictActorInv (Actor.dispatch a s
      { client_id := cid, path := xPath, op := Op.Put f }).1 ∧
    xrevS (Actor.dispatch a s
      { client_id := cid, path := xPath, op := Op.Put f }).2 ≤ xrevS s + 1 := by
  by_cases hcr : a.crashed = true
  · have hnoop : Actor.dispatch a s
        { client_id := cid, path := xPath, op := Op.Put f } = (a, s) := by
      simp [Actor.dispatch, Actor.put, hcr]
    rw [hnoop]
    exact ⟨hs, ha, Nat.le_add_right _ 1⟩
  · have hcr2 : a.crashed = false := by simpa using hcr
    obtain ⟨r, w, c1, hget, hc1, hlk⟩ := actor_get_xc a s hs ha hcr2
    have hdisp : Actor.dispatch a s
        { client_id := cid, path := xPath, op := Op.Put f } =
        Actor.write { a with cache := c1 } s xPath (Db.Doc w2) := by
      simp only [Actor.dispatch]
      rw [Actor.put, if_neg (by rw [hcr2]; simp), hget]
      simp only [hf]
    rw [hdisp]
    have h3 := actor_write_xcases { a with cache := c1 } s hs ⟨ha.1, hc1⟩ r w w2
      hw2 hlk
    exact ⟨h3.1, h3.2.1, h3.2.2⟩

theorem runAct_pres_gen (st : RunState Nat) (act : Act Nat)
    (hinv : conflictInv st)
    (hdisp : ∀ (a : Actor Nat) (s : Store (Db Nat)), conflictStoreInv s →
      conflictActorInv a →
      conflictStoreInv (Actor.dispatch a s act).2 ∧
      conflictActorInv (Actor.dispatch a s act).1 ∧
      xrevS (Actor.dispatch a s act).2 ≤ xrevS s + (if isPutAct act then 1 else 0))
    (hcid : act.client_id = "A" ∨ act.client_id = "B") :
    conflictInv (runAct st act) ∧
    xrevS (runAct st act).store ≤ xrevS st.store +
      (if isPutAct act then 1 else 0) := by
  obtain ⟨hstore, ⟨aA, aB, hactors, haA, haB⟩, hok⟩ := hinv
  rcases hcid with hcid | hcid
  · have hla : lookupActor act.client_id st.actors = some aA := by
      rw [hactors, hcid]
      rfl
    have hra : runAct st act = RunState.mk (Actor.dispatch aA st.store act).2
        (updateActor act.client_id (Actor.dispatch aA st.store act).1 st.actors)
        (Checker.check st.checker (Actor.dispatch aA st.store act).2).2
        (st.allOk &&
          (match (Checker.check st.checker (Actor.dispatch aA st.store act).2).1 with
           | Except.ok _ => true
           | Except.error _ => false)) := by
      rw [runAct, hla]
    have hup : updateActor act.client_id (Actor.dispatch aA st.store act).1
        st.actors = [("A", (Actor.dispatch aA st.store act).1), ("B", aB)] := by
      rw [hactors, hcid]
      rfl
    obtain ⟨hs2, ha2, hxr⟩ := hdisp aA st.store hstore haA
    rw [hra]
    refine ⟨⟨hs2, ⟨_, aB, hup, ha2, haB⟩, ?_⟩, hxr⟩
    have hchk := checker_ok (Actor.dispatch aA st.store act).2 hs2 st.checker
    show (st.allOk && _) = true
    rw [hok, hchk]
    rfl
  · have hla : lookupActor act.client_id st.actors = some aB := by
      rw [hactors, hcid]
      rfl
    have hra : runAct st act = RunState.mk (Actor.dispatch aB st.store act).2
        (updateActor act.client_id (Actor.dispatch aB st.store act).1 st.actors)
        (Checker.check st.checker (Actor.dispatch aB st.store act).2).2
        (st.allOk &&
          (match (Checker.check st.checker (Actor.dispatch aB st.store act).2).1 with
           | Except.ok _ => true
           | Except.error _ => false)) := by
      rw [runAct, hla]
    have hup : updateActor act.client_id (Actor.dispatch aB st.store act).1
        st.actors = [("A", aA), ("B", (Actor.dispatch aB st.store act).1)] := by
      rw [hactors, hcid]
      rfl
    obtain ⟨hs2, ha2, hxr⟩ := hdisp aB st.store hstore haB
    rw [hra]
    refine ⟨⟨hs2, ⟨aA, _, hup, haA, ha2⟩, ?_⟩, hxr⟩
    have hchk := checker_ok (Actor.dispatch aB st.store act).2 hs2 st.checker
    show (st.allOk && _) = true
    rw [hok, hchk]
    rfl

theorem runAct_pres (st : RunState Nat) (act : Act Nat)
    (hinv : conflictInv st) (hact : act ∈ seqPlan) :
    conflictInv (runAct st act) ∧
    xrevS (runAct st act).store ≤ xrevS st.store +
      (if isPutAct act then 1 else 0) := by
  rw [seqPlan_eq] at hact
  simp only [List.mem_cons, List.not_mem_nil, or_false] at hact
  rcases hact with rfl | rfl | rfl | rfl | rfl | rfl | rfl | rfl | rfl | rfl | rfl | rfl
  · exact runAct_pres_gen st _ hinv (fun a s hs ha => by
      obtain ⟨h1, h2, h3⟩ := dispatch_list_root a s "A" hs ha
      exact ⟨h1, h2, by simp [isPutAct]; omega⟩) (Or.inl rfl)
  · exact runAct_pres_gen st _ hinv (fun a s hs ha => by
      obtain ⟨h1, h2, h3⟩ := dispatch_list_pdir a s "A" hs ha
      exact ⟨h1, h2, by simp [isPutAct]; omega⟩) (Or.inl rfl)
  · exact runAct_pres_gen st _ hinv (fun a s hs ha => by
      obtain ⟨h1, h2, h3⟩ := dispatch_get_x a s "A" hs ha
      exact ⟨h1, h2, by simp [isPutAct]; omega⟩) (Or.inl rfl)
  · exact runAct_pres_gen st _ hinv (fun a s hs ha => by
      obtain ⟨h1, h2, h3⟩ := dispatch_link_root a s "A" hs ha
      exact ⟨h1, h2, by simp [isPutAct]; omega⟩) (Or.inl rfl)
  · exact runAct_pres_gen st _ hinv (fun a s hs ha => by
      obtain ⟨h1, h2, h3⟩ := dispatch_link_pdir a s "A" hs ha
      exact ⟨h1, h2, by simp [isPutAct]; omega⟩) (Or.inl rfl)
  · exact runAct_pres_gen st _ hinv (fun a s hs ha => by
      obtain ⟨h1, h2, h3⟩ := dispatch_put_x a s "A" updA 2
        (Or.inr (Or.inl rfl)) (fun x => rfl) hs ha
      exact ⟨h1, h2, by simp [isPutAct]; omega⟩) (Or.inl rfl)
  · exact runAct_pres_gen st _ hinv (fun a s hs ha => by
      obtain ⟨h1, h2, h3⟩ := dispatch_list_root a s "B" hs ha
      exact ⟨h1, h2, by simp [isPutAct]; omega⟩) (Or.inr rfl)
  · exact runAct_pres_gen st _ hinv (fun a s hs ha => by
      obtain ⟨h1, h2, h3⟩ := dispatch_list_pdir a s "B" hs ha
      exact ⟨h1, h2, by simp [isPutAct]; omega⟩) (Or.inr rfl)
  · exact runAct_pres_gen st _ hinv (fun a s hs ha => by
      obtain ⟨h1, h2, h3⟩ := dispatch_get_x a s "B" hs ha
      exact ⟨h1, h2, by simp [isPutAct]; omega⟩) (Or.inr rfl)
  · exact runAct_pres_gen st _ hinv (fun a s hs ha => by
      obtain ⟨h1, h2, h3⟩ := dispatch_link_root a s "B" hs ha
      exact ⟨h1, h2, by simp [isPutAct]; omega⟩) (Or.inr rfl)
  · exact runAct_pres_gen st _ hinv (fun a s hs ha => by
      obtain ⟨h1, h2, h3⟩ := dispatch_link_pdir a s "B" hs ha
      exact ⟨h1, h2, by simp [isPutAct]; omega⟩) (Or.inr rfl)
  · exact runAct_pres_gen st _ hinv (fun a s hs ha => by
      obtain ⟨h1, h2, h3⟩ := dispatch_put_x a s "B" updB 3
        (Or.inr (Or.inr rfl)) (fun x => rfl) hs ha
      exact ⟨h1, h2, by simp [isPutAct]; omega⟩) (Or.inr rfl)

theorem runPlan_inv : ∀ (plan : List (Act Nat)) (st : RunState Nat),
    conflictInv st → (∀ a ∈ plan, a ∈ seqPlan) →
    conflictInv (runPlan st plan) ∧
    xrevS (runPlan st plan).store ≤ xrevS st.store + plan.countP isPutAct := by
  intro plan
  induction plan with
  | nil =>
    intro st hinv _
    exact ⟨hinv, by simp [runPlan]⟩
  | cons act rest ih =>
    intro st hinv hmem
    obtain ⟨hinv1, hrev1⟩ := runAct_pres st act hinv (hmem act (List.mem_cons_self act rest))
    obtain ⟨hinv2, hrev2⟩ := ih (runAct st act) hinv1
      (fun a ha => hmem a (List.mem_cons_of_mem _ ha))
    have hfold : runPlan st (act :: rest) = runPlan (runAct st act) rest := by
      rw [runPlan, List.foldl_cons]
      rfl
    rw [hfold]
    refine ⟨hinv2, ?_⟩
    rw [List.countP_cons]
    by_cases hput : isPutAct act = true <;> simp [hput] at hrev1 ⊢ <;> omega

theorem conflictInit_inv : conflictInv conflictInit := by
  refine ⟨⟨rfl, 1, 1, 1, 1, rfl, le_refl 1, Or.inl rfl⟩,
    ⟨Actor.new Config.new, Actor.new Config.new, rfl, ⟨rfl, ?_⟩, ⟨rfl, ?_⟩⟩, rfl⟩ <;>
  · intro kv hkv
    exact absurd hkv (List.not_mem_nil kv)

theorem xrev_init : xrevS conflictInit.store = 1 := rfl

theorem seqPlan_countP : seqPlan.countP isPutAct = 2 := rfl

theorem orderings_perm (plan : List (Act Nat))
    (hp : plan ∈ conflictGraph.orderings) : List.Perm plan seqPlan := by
  rw [Graph.orderings, List.mem_map] at hp
  obtain ⟨ids, hids, hplan⟩ := hp
  obtain ⟨hperm, _⟩ := (permute_mem_iff conflictGraph.pairs conflictWF ids).mp hids
  subst hplan
  exact hperm.filterMap _

theorem seqPlan_mem : seqPlan ∈ conflictGraph.orderings := by
  rw [Graph.orderings, List.mem_map]
  refine ⟨seqIds, ?_, rfl⟩
  rw [permute_mem_iff conflictGraph.pairs conflictWF]
  constructor
  · exact List.Perm.refl _
  · rw [conflictPairs_eq]
    unfold precedes seqIds
    decide

/-- C1 (amended): for every ordering the enumerator yields for the merged
two-client update plan over the conflict baseline, dispatching the acts in
that order keeps the checker returning Ok after every act, and in the final
store `/path/x` is a present document whose rev lies between 1 and 3 and
whose value is the baseline value or one of the two clients' values.
(The original claim's "rev = 2, exactly one update persists, the loser
crashed" fails: the sequential ordering lands both puts at rev 3 with
neither actor crashed.) -/
theorem C1_conflict_scenario (plan : List (Act Nat))
    (hp : plan ∈ conflictGraph.orderings) :
    (runPlan conflictInit plan).allOk = true ∧
    ∃ r v, (runPlan conflictInit plan).store.read xPath =
        some (r, some (Db.Doc v)) ∧
      1 ≤ r ∧ r ≤ 3 ∧ (v = 1 ∨ v = 2 ∨ v = 3) := by
  have hperm := orderings_perm plan hp
  have hmem : ∀ a ∈ plan, a ∈ seqPlan := fun a ha => hperm.mem_iff.mp ha
  have hcount : plan.countP isPutAct = 2 := by
    rw [hperm.countP_eq isPutAct]
    exact seqPlan_countP
  obtain ⟨hinv, hxr⟩ := runPlan_inv plan conflictInit conflictInit_inv hmem
  obtain ⟨⟨hcfg, r0, r1, r2, v, hdata, hr2, hv⟩, _, hok⟩ := hinv
  have hstrict : (runPlan conflictInit plan).store.is_strict = true :=
    store_strict ⟨hcfg, r0, r1, r2, v, hdata, hr2, hv⟩
  refine ⟨hok, r2, v, ?_, hr2, ?_, hv⟩
  · rw [Store.read, hstrict, if_pos rfl, hdata, mapLookup_xc]
  · rw [xrevS_inv hdata, hcount, xrev_init] at hxr
    omega

/-- C1 counterexample: the all-of-A-then-all-of-B ordering is yielded by
the enumerator, yet it leaves `/path/x` at rev 3 (not 2), neither actor
crashed (no Put failed), and the checker stayed Ok throughout. -/
theorem C1_counterexample :
    seqPlan ∈ conflictGraph.orderings ∧
    (runPlan conflictInit seqPlan).store.read xPath =
      some (3, some (Db.Doc 3)) ∧
    (runPlan conflictInit seqPlan).actors.map (fun pa => pa.2.crashed) =
      [false, false] ∧
    (runPlan conflictInit seqPlan).allOk = true :=
  ⟨seqPlan_mem, rfl, rfl, rfl⟩

/-- C1 witness: the amended theorem applied at the sequential ordering. -/
theorem C1_witness :
    seqPlan ∈ conflictGraph.orderings ∧
    ((runPlan conflictInit seqPlan).allOk = true ∧
     ∃ r v, (runPlan conflictInit seqPlan).store.read xPath =
         some (r, some (Db.Doc v)) ∧
       1 ≤ r ∧ r ≤ 3 ∧ (v = 1 ∨ v = 2 ∨ v = 3)) :=
  ⟨seqPlan_mem, C1_conflict_scenario seqPlan seqPlan_mem⟩

end Mc2
